import Mathlib

/-!
# Verification of the deployment planner core (`pkg/resource/deploy/plan_apply.go`)

This file gives a shallow embedding of the plan iterator from
`pkg/resource/deploy/plan_apply.go` and proves properties of it.

Modelling conventions:
* Go maps keyed by URN with `bool` values are modelled as `List URN`
  (membership = the key maps to `true`; insertion = cons).
* `iter.regs` (`map[resource.URN]Step`) is an association list.
* The source iterator (`iter.src`) is the list of events it will yield;
  `src.Next()` pops the head, and the empty list is the terminal `nil` event.
* Provider and analyzer plugins are external collaborators; their responses
  for the calls made while processing one registration event are carried on
  the event itself (`ProviderOracle`), and every provider call the planner
  makes is recorded in a call trace (`PCall`) with the arguments passed.
* `contract.Assert` / `contract.Assertf` panics are modelled as the
  distinguished error constructor `GoErr.assertion`.
* Diagnostics sinks and glog logging are side-effect free in the model.
-/

namespace PulumiDeploy

/-- A property value (`resource.PropertyValue`); the claims under scrutiny
only use property maps as opaque comparable data, so scalars suffice. -/
inductive PValue
  | str (s : String)
  | num (n : Int)
  | boolVal (b : Bool)
deriving DecidableEq, Repr

/-- `resource.PropertyMap`: an association list from property name to value. -/
abbrev PropertyMap := List (String × PValue)

/-- URNs (`resource.URN`). -/
abbrev URN := String

/-- First-match lookup in a property map. -/
def pmLookup (m : PropertyMap) (k : String) : Option PValue :=
  (m.find? (fun kv => kv.1 == k)).map (fun kv => kv.2)

/-- Modelled from the spec: `resource.State.AddOutputs` merges extra output
properties into a state's outputs with append semantics — keys in the event
override existing keys of the same name (`plan_apply.go` only calls it; the
implementation lives outside this package). -/
def AddOutputs (cur outs : PropertyMap) : PropertyMap :=
  cur.filter (fun kv => !(outs.any (fun ov => ov.1 == kv.1))) ++ outs

/-- Modelled from the spec: `resource.PropertyMap.DeepEquals` is deep
structural equality of property maps (the implementation lives outside this
package; the planner only branches on its Boolean outcome). -/
def DeepEquals (a b : PropertyMap) : Bool := decide (a = b)

/-- Go `error` values: a leaf message, a `contract.Assert` panic, or a
`goerr.Wrapf`-style wrapper around a cause. -/
inductive GoErr
  | msg (s : String)
  | assertion (s : String)
  | wrap (s : String) (cause : GoErr)
deriving DecidableEq, Repr

/-- The chain of causes reachable by unwrapping `goerr.Wrapf` wrappers. -/
def errCauses : GoErr → List GoErr
  | .wrap _ c => c :: errCauses c
  | _ => []

/-- `resource.Status`: `StatusOK`, `StatusPartialFailure`, `StatusUnknown`. -/
inductive Status
  | ok
  | partFail
  | unknownFail
deriving DecidableEq, Repr

/-- `resource.State`: the record serialized into the checkpoint file. -/
structure RState where
  typ : String
  urn : URN
  custom : Bool
  delete : Bool
  id : String
  inputs : PropertyMap
  outputs : PropertyMap
  parent : URN
deriving DecidableEq, Repr

/-- `resource.NewState(t, urn, custom, del, id, inputs, outputs, parent)`. -/
def NewState (typ : String) (urn : URN) (custom delete : Bool) (id : String)
    (inputs outputs : PropertyMap) (parent : URN) : RState :=
  ⟨typ, urn, custom, delete, id, inputs, outputs, parent⟩

/-- Modelled from the spec: `resource.NewURN` derives a globally unique URN
deterministically from target name, source package, type and name (the
implementation lives outside this package). -/
def NewURN (target pkg typ name : String) : URN :=
  target ++ "::" ++ pkg ++ "::" ++ typ ++ "::" ++ name

/-- `plugin.CheckFailure`. -/
structure CheckFailure where
  property : String
  reason : String
deriving DecidableEq, Repr

/-- `plugin.AnalyzeFailure`. -/
structure AnalyzeFailure where
  property : String
  reason : String
deriving DecidableEq, Repr

/-- Modelled from the spec: `plugin.DiffResult` as returned by
`provider.Diff` — a replace flag plus replace/stable key lists; the Go
zero value (taken when no provider is consulted) has `replace = false`. -/
structure DiffResult where
  replace : Bool := false
  replaceKeys : List String := []
  stableKeys : List String := []
deriving DecidableEq, Repr

/-- The operation tag of a step (`step.Op()`). -/
inductive StepOp
  | same
  | create
  | update
  | createReplacement
  | replace
  | delete
deriving DecidableEq, Repr

/-- `Step`: one planned operation on one resource.  Payloads follow the
constructors `NewSameStep`, `NewCreateStep`, `NewUpdateStep`,
`NewCreateReplacementStep`, `NewReplaceStep`, `NewDeleteStep` (the
registration-event reference each carries in Go is omitted: the planner
never reads it back). -/
inductive Step
  | same (old nw : RState)
  | create (nw : RState)
  | update (old nw : RState) (stables : List String)
  | createReplacement (old nw : RState) (keys : List String)
  | replace (old nw : RState) (keys : List String)
  | delete (old : RState) (replacing : Bool)
deriving DecidableEq, Repr

/-- `step.Op()`. -/
def Step.op : Step → StepOp
  | .same _ _ => .same
  | .create _ => .create
  | .update _ _ _ => .update
  | .createReplacement _ _ _ => .createReplacement
  | .replace _ _ _ => .replace
  | .delete _ _ => .delete

/-- `step.URN()`. -/
def Step.urn : Step → URN
  | .same _ n => n.urn
  | .create n => n.urn
  | .update _ n _ => n.urn
  | .createReplacement _ n _ => n.urn
  | .replace _ n _ => n.urn
  | .delete o _ => o.urn

/-- `step.Logical()`: true for registration results the iterator must track
(per the spec's step table: Same, Create, Update, CreateReplacement). -/
def Step.logical : Step → Bool
  | .same _ _ => true
  | .create _ => true
  | .update _ _ _ => true
  | .createReplacement _ _ _ => true
  | .replace _ _ _ => false
  | .delete _ _ => false

/-- `step.New()`: the new state, for variants that have one. -/
def Step.newState : Step → Option RState
  | .same _ n => some n
  | .create n => some n
  | .update _ n _ => some n
  | .createReplacement _ n _ => some n
  | .replace _ n _ => some n
  | .delete _ _ => none

/-- `reg.New().AddOutputs(outs)`: merge extra outputs into the step's new
state. -/
def Step.addOutputs (s : Step) (outs : PropertyMap) : Step :=
  match s with
  | .same o n => .same o { n with outputs := AddOutputs n.outputs outs }
  | .create n => .create { n with outputs := AddOutputs n.outputs outs }
  | .update o n st => .update o { n with outputs := AddOutputs n.outputs outs } st
  | .createReplacement o n k =>
      .createReplacement o { n with outputs := AddOutputs n.outputs outs } k
  | .replace o n k => .replace o { n with outputs := AddOutputs n.outputs outs } k
  | .delete o r => .delete o r

/-- A provider call made by the planner, with the arguments passed
(`olds = none` models a `nil` prior property map). -/
inductive PCall
  | check (urn : URN) (olds : Option PropertyMap) (news : PropertyMap)
  | diffCall (urn : URN) (id : String) (olds : PropertyMap) (news : PropertyMap)
  | analyze (typ : String) (inputs : PropertyMap)
deriving DecidableEq, Repr

/-- The goal state carried by a `RegisterResourceEvent` (`resource.Goal`). -/
structure Goal where
  typ : String
  name : String
  custom : Bool
  properties : PropertyMap
  parent : URN
deriving DecidableEq, Repr

/-- The responses the resource provider gives to the calls the planner makes
while processing one registration event (providers are external
collaborators; their behavior is data of the model). -/
structure ProviderOracle where
  /-- Error from `iter.Provider(res.Type)`, if resolution fails. -/
  provErr : Option GoErr
  /-- Result of check pass 1, `prov.Check(urn, olds, news)`. -/
  check1 : Except GoErr (PropertyMap × List CheckFailure)
  /-- Result of check pass 2, `prov.Check(urn, nil, news)`. -/
  check2 : Except GoErr (PropertyMap × List CheckFailure)
  /-- Result of `prov.Diff(urn, old.ID, olds, inputs)`. -/
  diffRes : Except GoErr DiffResult
deriving Repr

/-- `RegisterResourceEvent`: a goal plus the provider/analyzer responses for
this event.  Each entry of `analyzers` is the combined outcome of loading
one configured analyzer and calling `Analyze` on it (`.error` covers a
missing analyzer, a load error, or an `Analyze` error). -/
structure RegEvent where
  goal : Goal
  oracle : ProviderOracle
  analyzers : List (Except GoErr (List AnalyzeFailure))
deriving Repr

/-- `RegisterResourceOutputsEvent`: a URN plus optional extra outputs. -/
structure OutsEvent where
  urn : URN
  outputs : Option PropertyMap
deriving Repr

/-- An event yielded by the source iterator. -/
inductive Event
  | register (e : RegEvent)
  | outputs (e : OutsEvent)
deriving Repr

/-- The caller's `Events` hook interface.  The pre-hook's opaque
`interface{}` context value is modelled as a `Nat`. -/
structure EventsHooks where
  onPre : Step → Nat × Option GoErr
  onPost : Nat → Step → Status → Option GoErr → Option GoErr
  onOutputs : Step → Option GoErr

/-- `PlanIterator`: the stateful driver.  `targetName`/`sourcePkg`/`prev`
stand for the plan fields read by the iterator (`p.Target().Name`,
`p.source.Pkg()`, `p.prev.Resources`); `src` is the list of events the
source will yield. -/
structure IterState where
  targetName : String
  sourcePkg : String
  prev : Option (List RState)
  events : Option EventsHooks
  src : List Event
  urns : List URN
  creates : List URN
  updates : List URN
  replaces : List URN
  deletes : List URN
  sames : List URN
  stepqueue : List Step
  delqueue : List RState
  resources : List RState
  regs : List (URN × Step)
  dones : List RState
  srcdone : Bool
  done : Bool

/-- `Plan.Start`: the iterator begins with empty classification state. -/
def startState (targetName sourcePkg : String) (prev : Option (List RState))
    (events : Option EventsHooks) (src : List Event) : IterState :=
  { targetName := targetName, sourcePkg := sourcePkg, prev := prev,
    events := events, src := src,
    urns := [], creates := [], updates := [], replaces := [], deletes := [],
    sames := [], stepqueue := [], delqueue := [], resources := [], regs := [],
    dones := [], srcdone := false, done := false }

/-- Modelled from the spec: `Plan.Olds()` is the prior snapshot's URN map
(the implementation lives outside this package). -/
def Olds (prev : Option (List RState)) (urn : URN) : Option RState :=
  (prev.getD []).find? (fun r => r.urn == urn)

/-- The analyzer pass of `makeRegisterResouceSteps`: load/analyze errors
return immediately; analyze failures flag invalid but continue.  Returns
the invalid flag plus the trace of analyzer calls attempted. -/
def runAnalyzers (typ : String) (inputs : PropertyMap) :
    List (Except GoErr (List AnalyzeFailure)) → Except GoErr Bool × List PCall
  | [] => (.ok false, [])
  | a :: rest =>
    match a with
    | .error err => (.error err, [PCall.analyze typ inputs])
    | .ok fails =>
      match runAnalyzers typ inputs rest with
      | (.error err, tr) => (.error err, PCall.analyze typ inputs :: tr)
      | (.ok inv, tr) => (.ok (inv || !fails.isEmpty), PCall.analyze typ inputs :: tr)

/-- The terminal validation error of `makeRegisterResouceSteps`. -/
def validationErr : GoErr :=
  .msg "One or more resource validation errors occurred; refusing to proceed"

/-- `PlanIterator.makeRegisterResouceSteps` (sic — the Go name).  Returns
the step list or the error, the updated iterator state, and the trace of
provider/analyzer calls made.  A provider is consulted exactly when the
resource is custom (`prov != nil` iff `res.Custom`, given successful
resolution). -/
def makeRegisterResouceSteps (iter0 : IterState) (e : RegEvent) :
    Except GoErr (List Step) × IterState × List PCall :=
  let res := e.goal
  -- urn := resource.NewURN(...); duplicate URNs flag invalid.
  let urn := NewURN iter0.targetName iter0.sourcePkg res.typ res.name
  let dup := iter0.urns.contains urn
  let iter := { iter0 with urns := urn :: iter0.urns }
  -- new := resource.NewState(res.Type, urn, res.Custom, false, "", res.Properties, nil, res.Parent)
  let new0 := NewState res.typ urn res.custom false "" res.properties [] res.parent
  -- old, hasold := iter.p.Olds()[urn]; olds = old.Inputs when present.
  let oldOpt := Olds iter0.prev urn
  let olds : Option PropertyMap := oldOpt.map RState.inputs
  -- Provider resolution, custom resources only.
  if res.custom && e.oracle.provErr.isSome then
    (.error (e.oracle.provErr.getD (.msg "")), iter, [])
  else
    -- news, inputs := new.Inputs, new.Inputs
    let news := new0.inputs
    -- Check pass 1 (only when a provider exists).
    let c1 : Except GoErr (PropertyMap × Bool) × List PCall :=
      if res.custom then
        match e.oracle.check1 with
        | .error err => (.error err, [.check urn olds news])
        | .ok (ins, fails) => (.ok (ins, !fails.isEmpty), [.check urn olds news])
      else (.ok (news, false), [])
    match c1 with
    | (.error err, tr1) => (.error err, iter, tr1)
    | (.ok (inputs1, chkBad), tr1) =>
      -- new.Inputs = inputs
      let new1 := { new0 with inputs := inputs1 }
      -- Analyzer pass (runs regardless of earlier failures).
      match runAnalyzers new1.typ inputs1 e.analyzers with
      | (.error err, tr2) => (.error err, iter, tr1 ++ tr2)
      | (.ok anBad, tr2) =>
        -- if invalid { return error }
        if dup || chkBad || anBad then
          (.error validationErr, iter, tr1 ++ tr2)
        else
          match oldOpt with
          | none =>
            -- Resource creation.
            (.ok [Step.create new1], { iter with creates := urn :: iter.creates },
             tr1 ++ tr2)
          | some old =>
            -- contract.Assert(old != nil && old.Type == new.Type)
            if old.typ != new1.typ then
              (.error (.assertion "old.Type == new.Type"), iter, tr1 ++ tr2)
            else if DeepEquals old.inputs inputs1 then
              -- Properties didn't change: Same.
              (.ok [Step.same old new1], { iter with sames := urn :: iter.sames },
               tr1 ++ tr2)
            else
              -- diff := prov.Diff(urn, old.ID, olds, inputs) when prov != nil,
              -- else the zero DiffResult.
              let dres : Except GoErr DiffResult × List PCall :=
                if res.custom then
                  (e.oracle.diffRes, [.diffCall urn old.id old.inputs inputs1])
                else (.ok {}, [])
              match dres with
              | (.error err, tr3) => (.error err, iter, tr1 ++ tr2 ++ tr3)
              | (.ok diff, tr3) =>
                if diff.replace then
                  let iterR := { iter with replaces := urn :: iter.replaces }
                  -- Check pass 2: re-check with no prior inputs on the
                  -- original inputs (news), since carried-over defaults may
                  -- no longer be valid.  Failures here are fatal.
                  if res.custom then
                    match e.oracle.check2 with
                    | .error err =>
                      (.error err, iterR, tr1 ++ tr2 ++ tr3 ++ [.check urn none news])
                    | .ok (ins2, fails2) =>
                      if !fails2.isEmpty then
                        (.error validationErr, iterR,
                         tr1 ++ tr2 ++ tr3 ++ [.check urn none news])
                      else
                        let new2 := { new1 with inputs := ins2 }
                        (.ok [Step.createReplacement old new2 diff.replaceKeys,
                              Step.replace old new2 diff.replaceKeys],
                         iterR, tr1 ++ tr2 ++ tr3 ++ [.check urn none news])
                  else
                    (.ok [Step.createReplacement old new1 diff.replaceKeys,
                          Step.replace old new1 diff.replaceKeys],
                     iterR, tr1 ++ tr2 ++ tr3)
                else
                  -- Fell through: an update.
                  (.ok [Step.update old new1 diff.stableKeys],
                   { iter with updates := urn :: iter.updates }, tr1 ++ tr2 ++ tr3)

/-- `iter.regs[urn]` lookup. -/
def lookupReg (regs : List (URN × Step)) (u : URN) : Option Step :=
  (regs.find? (fun kv => kv.1 == u)).map (fun kv => kv.2)

/-- `_, has := iter.regs[urn]`. -/
def hasReg (regs : List (URN × Step)) (u : URN) : Bool :=
  regs.any (fun kv => kv.1 == u)

/-- `delete(iter.regs, urn)`. -/
def removeReg (regs : List (URN × Step)) (u : URN) : List (URN × Step) :=
  regs.filter (fun kv => !(kv.1 == u))

/-- The observable outcome of `PlanIterator.Apply`.  `regs` is the only
piece of iterator state `Apply` mutates; `stepApplied` records whether
`step.Apply(preview)` was invoked, and `postArgs` records the arguments the
post-hook received (`none` when the post-hook was not invoked). -/
structure ApplyResult where
  status : Status
  err : Option GoErr
  regs : List (URN × Step)
  stepApplied : Bool
  postArgs : Option (Nat × Status × Option GoErr)
deriving Repr

/-- `PlanIterator.Apply(step, preview)`.  `outcome` stands for the result
of the call `step.Apply(preview)` (step execution is delegated to providers
and is external to the planner). -/
def Apply (iter : IterState) (step : Step) (outcome : Status × Option GoErr) :
    ApplyResult :=
  -- If there is a pre-event, raise it.
  let preRes : Nat × Option GoErr :=
    match iter.events with
    | some hooks => hooks.onPre step
    | none => (0, none)
  match preRes.2 with
  | some pe =>
    { status := .ok, err := some (.wrap "pre-step event returned an error" pe),
      regs := iter.regs, stepApplied := false, postArgs := none }
  | none =>
    -- Apply the step.
    let status := outcome.1
    let err := outcome.2
    -- If there is no error, remember logical steps in regs; a duplicate
    -- registration returns (StatusOK, error) immediately, skipping the
    -- post-event.
    let regsRes : Except GoErr (List (URN × Step)) :=
      match err with
      | none =>
        if step.logical then
          if hasReg iter.regs step.urn then
            .error (.msg "resource registered twice")
          else .ok ((step.urn, step) :: iter.regs)
        else .ok iter.regs
      | some _ => .ok iter.regs
    match regsRes with
    | .error dupErr =>
      { status := .ok, err := some dupErr, regs := iter.regs,
        stepApplied := true, postArgs := none }
    | .ok regs2 =>
      -- If there is a post-event, raise it, and in any case return results.
      match iter.events with
      | some hooks =>
        match hooks.onPost preRes.1 step status err with
        | some pe =>
          { status := status,
            err := some (.wrap "post-step event returned an error" pe),
            regs := regs2, stepApplied := true,
            postArgs := some (preRes.1, status, err) }
        | none =>
          { status := status, err := err, regs := regs2, stepApplied := true,
            postArgs := some (preRes.1, status, err) }
      | none =>
        { status := status, err := err, regs := regs2, stepApplied := true,
          postArgs := none }

/-- The observable outcome of `registerResourceOutputs`: the error (if
any), the regs map after processing, the completed step after the outputs
merge (when the URN was pending), and whether the `OnResourceOutputs` hook
ran and whether the event's `Done()` was called. -/
structure ROResult where
  err : Option GoErr
  regs : List (URN × Step)
  merged : Option Step
  hookCalled : Bool
  doneCalled : Bool

/-- `PlanIterator.registerResourceOutputs`.  A completion for a URN whose
registration is not pending hits `contract.Assertf` (a fatal assertion,
modelled as `GoErr.assertion`). -/
def registerResourceOutputs (iter : IterState) (ev : OutsEvent) : ROResult :=
  match lookupReg iter.regs ev.urn with
  | none =>
    { err := some (.assertion
        "cannot complete a resource whose registration isn't pending"),
      regs := iter.regs, merged := none, hookCalled := false,
      doneCalled := false }
  | some reg =>
    -- delete(iter.regs, urn)
    let regs2 := removeReg iter.regs ev.urn
    -- if outs := e.Outputs(); outs != nil { reg.New().AddOutputs(outs) }
    let reg2 := match ev.outputs with
      | some outs => reg.addOutputs outs
      | none => reg
    match iter.events with
    | some hooks =>
      match hooks.onOutputs reg2 with
      | some he =>
        { err := some (.wrap "resource complete event returned an error" he),
          regs := regs2, merged := some reg2, hookCalled := true,
          doneCalled := false }
      | none =>
        { err := none, regs := regs2, merged := some reg2, hookCalled := true,
          doneCalled := true }
    | none =>
      { err := none, regs := regs2, merged := some reg2, hookCalled := false,
        doneCalled := true }

/-- The enqueue condition of `computeDeletes`: delete-marked, or in neither
`sames` nor `updates`, or in `replaces`. -/
def delCond (iter : IterState) (res : RState) : Bool :=
  res.delete || (!(iter.sames.contains res.urn) && !(iter.updates.contains res.urn))
    || iter.replaces.contains res.urn

/-- The backwards index walk of `computeDeletes`: `deleteWalk cond l n`
visits indices `n-1, n-2, …, 0` of `l` in that order, appending each
element satisfying `cond`. -/
def deleteWalk (cond : RState → Bool) (prevRes : List RState) : Nat → List RState
  | 0 => []
  | i + 1 =>
    match prevRes[i]? with
    | some res =>
      if cond res then res :: deleteWalk cond prevRes i
      else deleteWalk cond prevRes i
    | none => deleteWalk cond prevRes i

/-- `PlanIterator.computeDeletes`: walk the prior snapshot backwards,
enqueueing every resource satisfying `delCond`.  (The in-loop
`contract.Assert(!iter.creates[urn] || res.Delete)` is a programmer-error
panic and is not part of the computed list.) -/
def computeDeletes (iter : IterState) : List RState :=
  match iter.prev with
  | none => []
  | some prevRes => deleteWalk (delCond iter) prevRes prevRes.length

/-- `PlanIterator.Snap`: the merged resource list — a copy of the states
committed so far, followed (only while the plan is not done and a prior
snapshot exists) by every prior resource not marked done, in prior order.
The manifest (wall-clock time, engine version, loaded plugins, magic) is
environment data outside the model. -/
def Snap (iter : IterState) : List RState :=
  let resources := iter.resources
  if !iter.done then
    match iter.prev with
    | some prevSnap =>
      resources ++ prevSnap.filter (fun res => !(decide (res ∈ iter.dones)))
    | none => resources
  else resources

/-- `PlanIterator.MarkStateSnapshot`. -/
def MarkStateSnapshot (iter : IterState) (state : RState) : IterState :=
  { iter with dones := state :: iter.dones }

/-- `PlanIterator.AppendStateSnapshot`. -/
def AppendStateSnapshot (iter : IterState) (state : RState) : IterState :=
  { iter with resources := iter.resources ++ [state] }

/-- One pass of the `Next` loop body: either a `return` out of `Next`
(step/error plus the state at that point) or a `continue`. -/
inductive LoopOut
  | ret (step : Option Step) (err : Option GoErr) (s : IterState)
  | cont (s : IterState)

/-- The body of `PlanIterator.Next`'s `for !iter.done` loop, one iteration:
drain `stepqueue` first; otherwise pull a source event (registration →
`makeRegisterResouceSteps`, completion → `registerResourceOutputs` then
`continue`, end of stream → set `srcdone`, compute deletes, `continue`);
once the source is done, drain `delqueue` (a popped delete records its URN
in `deletes`), and when that quiesces set `done`. -/
def nextBody (iter : IterState) : LoopOut :=
  match iter.stepqueue with
  | step :: rest => .ret (some step) none { iter with stepqueue := rest }
  | [] =>
    if iter.srcdone then
      -- nextDeleteStep: drain deletions.
      match iter.delqueue with
      | del :: rest =>
        .ret (some (Step.delete del (iter.replaces.contains del.urn))) none
          { iter with delqueue := rest, deletes := del.urn :: iter.deletes }
      | [] => .ret none none { iter with done := true }
    else
      match iter.src with
      | [] =>
        -- Source returned nil: note srcdone and add pending deletions.
        .cont { iter with srcdone := true, delqueue := computeDeletes iter }
      | ev :: rest =>
        let iter1 := { iter with src := rest }
        match ev with
        | .register e =>
          match makeRegisterResouceSteps iter1 e with
          | (.error err, s2, _) => .ret none (some err) s2
          | (.ok steps, s2, _) =>
            -- contract.Assert(len(steps) > 0); queue the tail, return head.
            match steps with
            | [] => .ret none (some (.assertion "len(steps) > 0")) s2
            | st :: tail => .ret (some st) none { s2 with stepqueue := tail }
        | .outputs e =>
          let r := registerResourceOutputs iter1 e
          match r.err with
          | some err => .ret none (some err) { iter1 with regs := r.regs }
          | none => .cont { iter1 with regs := r.regs }

/-- Loop measure for `Next`: each `continue` consumes a source event or
flips `srcdone`. -/
def loopMeasure (s : IterState) : Nat :=
  2 * s.src.length + (if s.srcdone then 0 else 1)

/-- `Next`'s loop, with fuel (the fuel is immaterial once it exceeds
`loopMeasure`; see `nextLoop_fuel_irrel`). -/
def nextLoop : Nat → IterState → (Option Step × Option GoErr) × IterState
  | 0, s => ((none, none), s)
  | n + 1, s =>
    if s.done then ((none, none), s)
    else
      match nextBody s with
      | .ret st err s2 => ((st, err), s2)
      | .cont s2 => nextLoop n s2

/-- `PlanIterator.Next`: run the loop with sufficient fuel. -/
def Next (s : IterState) : (Option Step × Option GoErr) × IterState :=
  nextLoop (loopMeasure s + 1) s

/-- The steps produced by `n` successive successful `Next` calls. -/
def nextSteps : Nat → IterState → List Step
  | 0, _ => []
  | n + 1, s =>
    match Next s with
    | ((some st, none), s2) => st :: nextSteps n s2
    | _ => []

/-- One caller-visible transition of the iterator: a `Next` call, or an
`Apply` call (which can mutate `regs` only). -/
def StepRel (a b : IterState) : Prop :=
  b = (Next a).2 ∨
    ∃ st oc, b = { a with regs := (Apply a st oc).regs }

/-- Reachability through caller-visible transitions. -/
def Reaches : IterState → IterState → Prop :=
  Relation.ReflTransGen StepRel

/-! ## Named subexpressions of `makeRegisterResouceSteps` -/

/-- The URN computed for a registration event. -/
def eventURN (iter : IterState) (e : RegEvent) : URN :=
  NewURN iter.targetName iter.sourcePkg e.goal.typ e.goal.name

/-- The inputs after check pass 1 (`new.Inputs` after the first
`prov.Check`); for a logical resource they are the goal properties. -/
def checkedInputs (e : RegEvent) : PropertyMap :=
  if e.goal.custom then
    match e.oracle.check1 with
    | .ok (ins, _) => ins
    | .error _ => e.goal.properties
  else e.goal.properties

/-- The inputs returned by check pass 2. -/
def check2Inputs (e : RegEvent) : PropertyMap :=
  match e.oracle.check2 with
  | .ok (ins, _) => ins
  | .error _ => e.goal.properties

/-- The provisional new state after check pass 1 (`new` with
`new.Inputs = inputs`). -/
def newStateOf (iter : IterState) (e : RegEvent) : RState :=
  { typ := e.goal.typ, urn := eventURN iter e, custom := e.goal.custom,
    delete := false, id := "", inputs := checkedInputs e, outputs := [],
    parent := e.goal.parent }

/-- The new state after check pass 2 (custom replacements only). -/
def newStateOf2 (iter : IterState) (e : RegEvent) : RState :=
  { newStateOf iter e with inputs := check2Inputs e }

/-- The diff the decision engine acts on: the provider's answer for a
custom resource, the zero `DiffResult` for a logical one. -/
def diffOf (e : RegEvent) : DiffResult :=
  if e.goal.custom then
    match e.oracle.diffRes with
    | .ok d => d
    | .error _ => {}
  else {}

/-- The iterator after `iter.urns[urn] = true`. -/
def withURN (iter : IterState) (e : RegEvent) : IterState :=
  { iter with urns := eventURN iter e :: iter.urns }

/-- `withURN` plus `iter.creates[urn] = true`. -/
def withCreate (iter : IterState) (e : RegEvent) : IterState :=
  { withURN iter e with creates := eventURN iter e :: iter.creates }

/-- `withURN` plus `iter.sames[urn] = true`. -/
def withSame (iter : IterState) (e : RegEvent) : IterState :=
  { withURN iter e with sames := eventURN iter e :: iter.sames }

/-- `withURN` plus `iter.updates[urn] = true`. -/
def withUpdate (iter : IterState) (e : RegEvent) : IterState :=
  { withURN iter e with updates := eventURN iter e :: iter.updates }

/-- `withURN` plus `iter.replaces[urn] = true`. -/
def withReplace (iter : IterState) (e : RegEvent) : IterState :=
  { withURN iter e with replaces := eventURN iter e :: iter.replaces }

/-! ## Topological-sort predicates (claim C2) -/

/-- The prior snapshot's resource list (empty when there is none). -/
def prevList (s : IterState) : List RState :=
  s.prev.getD []

/-- A resource list is a valid topological sort w.r.t. parent edges: a
resource with a non-empty parent URN is preceded by a resource carrying
that URN. -/
def TopoSorted (l : List RState) : Prop :=
  ∀ i, ∀ hi : i < l.length, l[i].parent ≠ "" →
    ∃ j, ∃ hj : j < l.length, j < i ∧ l[j].urn = l[i].parent

/-- Accumulator form of `TopoSorted`: every element's non-empty parent URN
occurs among `seen` or among the URNs of the elements before it. -/
def TopoFrom (seen : List URN) : List RState → Prop
  | [] => True
  | r :: rest => (r.parent ≠ "" → r.parent ∈ seen) ∧ TopoFrom (r.urn :: seen) rest

instance decidableBexLTDep (n : Nat) (P : ∀ j, j < n → Prop)
    [∀ j h, Decidable (P j h)] : Decidable (∃ j, ∃ h : j < n, P j h) :=
  decidable_of_iff (¬ ∀ j, ∀ h : j < n, ¬ P j h) (by
    constructor
    · intro h
      by_contra hne
      apply h
      intro j hj hP
      exact hne ⟨j, hj, hP⟩
    · rintro ⟨j, hj, hP⟩ hall
      exact hall j hj hP)

instance (l : List RState) : Decidable (TopoSorted l) := by
  unfold TopoSorted
  infer_instance

/-! ## The run invariant (claim C7) -/

/-- The invariant maintained by every caller-visible transition of the
iterator: `creates`/`updates`/`sames` are pairwise disjoint, every
classified URN was recorded in `urns`, every replaced URN names a prior
resource, and once the source is drained every replaced URN is in
`deletes` or still queued for deletion (hence in `deletes` once done). -/
structure Inv (s : IterState) : Prop where
  cu : ∀ u, u ∈ s.creates → u ∉ s.updates
  cs : ∀ u, u ∈ s.creates → u ∉ s.sames
  us : ∀ u, u ∈ s.updates → u ∉ s.sames
  subUrns : ∀ u, u ∈ s.creates ∨ u ∈ s.updates ∨ u ∈ s.sames ∨ u ∈ s.replaces →
    u ∈ s.urns
  repPrev : ∀ u, u ∈ s.replaces → ∃ r, r ∈ prevList s ∧ r.urn = u
  repDel : s.srcdone = true → ∀ u, u ∈ s.replaces →
    u ∈ s.deletes ∨ ∃ r, r ∈ s.delqueue ∧ r.urn = u
  doneDel : s.done = true → ∀ u, u ∈ s.replaces → u ∈ s.deletes
  doneSrc : s.done = true → s.srcdone = true

/-! ## Concrete fixtures for witnesses and counterexamples -/

/-- `{k: 1}`. -/
def pmA : PropertyMap := [("k", .num 1)]

/-- `{k: 2}`. -/
def pmB : PropertyMap := [("k", .num 2)]

/-- A custom resource state with inputs `pmA`. -/
def stA : RState :=
  NewState "A" (NewURN "t" "pkg" "A" "x") true false "r1" pmA [] ""

/-- A second state, child of `stA`. -/
def stB : RState :=
  NewState "A" (NewURN "t" "pkg" "A" "y") true false "r2" pmB [] (NewURN "t" "pkg" "A" "x")

/-- A step error and a hook error used by the `Apply` scenarios. -/
def errStep : GoErr := .msg "step apply failed"

/-- The hook error used by the `Apply` scenarios. -/
def errHook : GoErr := .msg "hook failed"

/-- Hooks whose pre-step hook fails. -/
def hooksPreFail : EventsHooks :=
  { onPre := fun _ => (7, some errHook),
    onPost := fun _ _ _ _ => none,
    onOutputs := fun _ => none }

/-- Hooks whose post-step hook fails. -/
def hooksPostFail : EventsHooks :=
  { onPre := fun _ => (3, none),
    onPost := fun _ _ _ _ => some errHook,
    onOutputs := fun _ => none }

/-- Iterator state for the pre-hook failure scenario. -/
def iterPre : IterState := startState "t" "pkg" none (some hooksPreFail) []

/-- Iterator state for the post-hook failure scenario. -/
def iterPost : IterState := startState "t" "pkg" none (some hooksPostFail) []

/-- Iterator state with one pending registration, for the outputs scenario. -/
def iterRegs : IterState :=
  { startState "t" "pkg" none none [] with
    regs := [(stA.urn, Step.create stA)] }

/-- An output-completion event for `stA`'s URN carrying `pmB`. -/
def evOuts : OutsEvent := { urn := stA.urn, outputs := some pmB }

/-- An output-completion event for an unregistered URN. -/
def evOutsMissing : OutsEvent := { urn := "nobody", outputs := none }

/-- A fully valid registration event creating `stA` (no prior state). -/
def evCreate : RegEvent :=
  { goal := { typ := "A", name := "x", custom := true, properties := pmA,
              parent := "" },
    oracle := { provErr := none, check1 := .ok (pmA, []), check2 := .ok (pmA, []),
                diffRes := .ok {} },
    analyzers := [] }

/-- Iterator state for the registration scenarios (no prior snapshot). -/
def iterReg : IterState := startState "t" "pkg" none none []

/-- Iterator state whose prior snapshot is `[stA]`. -/
def iterPrevA : IterState := startState "t" "pkg" (some [stA]) none []

/-- A registration event for `stA`'s URN whose first check reports a
failure and whose single analyzer errors. -/
def evCheckFail : RegEvent :=
  { goal := { typ := "A", name := "x", custom := true, properties := pmB,
              parent := "" },
    oracle := { provErr := none,
                check1 := .ok (pmB, [{ property := "k", reason := "bad" }]),
                check2 := .ok (pmB, []),
                diffRes := .ok {} },
    analyzers := [] }

/-- A registration event for `stA`'s URN that diffs to a replacement whose
second check reports a failure. -/
def evReplaceFail : RegEvent :=
  { goal := { typ := "A", name := "x", custom := true, properties := pmB,
              parent := "" },
    oracle := { provErr := none,
                check1 := .ok (pmB, []),
                check2 := .ok (pmB, [{ property := "k", reason := "stale" }]),
                diffRes := .ok { replace := true, replaceKeys := ["k"] } },
    analyzers := [] }

/-- Iterator state mid-drain: source done, two deletions queued. -/
def iterDrain : IterState :=
  { startState "t" "pkg" (some [stA, stB]) none [] with
    srcdone := true,
    delqueue := computeDeletes
      { startState "t" "pkg" (some [stA, stB]) none [] with srcdone := true } }

/-- Iterator state for the snapshot scenarios: one committed resource, a
prior snapshot `[stA, stB]` whose first element is done. -/
def iterSnap : IterState :=
  { startState "t" "pkg" (some [stA, stB]) none [] with
    resources := [{ stA with inputs := pmB }],
    dones := [stA] }

/-- The empty-plan iterator after one `Next` call (it finishes at once). -/
def iterDone : IterState := (Next (startState "t" "pkg" none none [])).2

/-- A done-and-drained iterator state for the `Next` idempotence witness. -/
def iterStopped : IterState :=
  { startState "t" "pkg" none none [] with srcdone := true, done := true }

/-! ## Loop infrastructure: `Next` unfolds one `nextBody` pass at a time -/

theorem nextBody_cont_measure {s s' : IterState} (h : nextBody s = .cont s') :
    loopMeasure s' < loopMeasure s := by
  unfold nextBody at h
  split at h
  · exact absurd h (by simp)
  · split at h
    · split at h <;> exact absurd h (by simp)
    · split at h
      · cases h
        simp_all [loopMeasure]
      · dsimp only at h
        split at h
        · split at h
          · exact absurd h (by simp)
          · split at h <;> exact absurd h (by simp)
        · split at h
          · exact absurd h (by simp)
          · cases h
            simp_all [loopMeasure]

theorem nextLoop_stable : ∀ (n : Nat) (s : IterState), loopMeasure s < n →
    nextLoop n s = nextLoop (loopMeasure s + 1) s := by
  intro n
  induction n using Nat.strong_induction_on with
  | _ n ih =>
    intro s hlt
    match n, hlt with
    | n + 1, hlt =>
      show nextLoop (n + 1) s = nextLoop (loopMeasure s + 1) s
      rw [nextLoop, nextLoop]
      split
      · rfl
      · cases hb : nextBody s with
        | ret st err s2 => rfl
        | cont s2 =>
          have hm := nextBody_cont_measure hb
          have h1 : nextLoop n s2 = nextLoop (loopMeasure s2 + 1) s2 :=
            ih n (Nat.lt_succ_self n) s2 (by omega)
          have h2 : nextLoop (loopMeasure s) s2 = nextLoop (loopMeasure s2 + 1) s2 :=
            ih (loopMeasure s) (by omega) s2 hm
          show nextLoop n s2 = nextLoop (loopMeasure s) s2
          rw [h1, h2]

theorem Next_eq (s : IterState) :
    Next s = if s.done then ((none, none), s)
      else match nextBody s with
        | .ret st err s2 => ((st, err), s2)
        | .cont s2 => Next s2 := by
  show nextLoop (loopMeasure s + 1) s = _
  rw [nextLoop]
  split
  · rfl
  · cases hb : nextBody s with
    | ret st err s2 => rfl
    | cont s2 =>
      have hm := nextBody_cont_measure hb
      show nextLoop (loopMeasure s) s2 = Next s2
      exact nextLoop_stable (loopMeasure s) s2 hm

/-! ## Claim C9: pre-hook failure short-circuits `Apply` -/

/-- C9: If the pre-step hook returns a non-nil error, `Apply` returns
status `StatusOK` together with an error wrapping the hook error, without
ever invoking `step.Apply`, without invoking the post-step hook, and
leaving `regs` (the only iterator state `Apply` mutates) unchanged. -/
theorem Apply_prehook_error (iter : IterState) (step : Step)
    (outcome : Status × Option GoErr) (hooks : EventsHooks) (ctx : Nat) (pe : GoErr)
    (hev : iter.events = some hooks) (hpre : hooks.onPre step = (ctx, some pe)) :
    Apply iter step outcome =
      { status := .ok, err := some (.wrap "pre-step event returned an error" pe),
        regs := iter.regs, stepApplied := false, postArgs := none } := by
  unfold Apply
  rw [hev]
  dsimp only
  rw [hpre]

/-- Witness for C9 at the concrete pre-hook-failure scenario. -/
theorem Apply_prehook_error_witness :
    Apply iterPre (Step.create stA) (.ok, none) =
      { status := .ok,
        err := some (.wrap "pre-step event returned an error" errHook),
        regs := iterPre.regs, stepApplied := false, postArgs := none } :=
  Apply_prehook_error iterPre (Step.create stA) (.ok, none) hooksPreFail 7 errHook
    rfl rfl

/-! ## Claim C10: `Next` after `done`, and the source after `srcdone` -/

theorem nextBody_srcdone {s : IterState} (h : s.srcdone = true) :
    ∃ st err s2, nextBody s = .ret st err s2 ∧ s2.src = s.src ∧ s2.srcdone = true := by
  unfold nextBody
  split
  · exact ⟨_, _, _, rfl, rfl, h⟩
  · rw [if_pos h]
    split
    · exact ⟨_, _, _, rfl, rfl, h⟩
    · exact ⟨_, _, _, rfl, rfl, h⟩

/-- C10: Once `done` is set, every `Next` call returns `(nil, nil)` with
the state (source and queues included) untouched; and once the source has
yielded its terminal nil event (`srcdone`), `Next` never consumes the
source again and `srcdone` stays set. -/
theorem Next_done_idempotent (s : IterState) :
    (s.done = true → Next s = ((none, none), s)) ∧
    (s.srcdone = true → (Next s).2.src = s.src ∧ (Next s).2.srcdone = true) := by
  constructor
  · intro h
    rw [Next_eq, if_pos h]
  · intro h
    rw [Next_eq]
    by_cases hd : s.done = true
    · rw [if_pos hd]
      exact ⟨rfl, h⟩
    · rw [if_neg hd]
      obtain ⟨st, err, s2, hb, hsrc, hsd⟩ := nextBody_srcdone h
      rw [hb]
      exact ⟨hsrc, hsd⟩

/-- Witness for C10 at a stopped iterator. -/
theorem Next_done_idempotent_witness :
    Next iterStopped = ((none, none), iterStopped) ∧
    ((Next iterStopped).2.src = iterStopped.src ∧
      (Next iterStopped).2.srcdone = true) :=
  ⟨(Next_done_idempotent iterStopped).1 rfl,
   (Next_done_idempotent iterStopped).2 rfl⟩

/-! ## Claim C8: the snapshot merge -/

/-- C8: `Snap`'s resource list starts with a copy of the states committed
via `AppendStateSnapshot` and, only when the plan is not done and a prior
snapshot exists, is followed by every prior resource not marked in `dones`,
in the prior snapshot's original order; when the plan is done no prior
resources are appended. -/
theorem Snap_merge_order (iter : IterState) (st : RState) (p : List RState) :
    (AppendStateSnapshot iter st).resources = iter.resources ++ [st] ∧
    (iter.done = true → Snap iter = iter.resources) ∧
    (iter.done = false → iter.prev = some p →
      Snap iter = iter.resources ++
        p.filter (fun r => !(decide (r ∈ iter.dones)))) ∧
    (iter.done = false → iter.prev = none → Snap iter = iter.resources) := by
  refine ⟨rfl, ?_, ?_, ?_⟩
  · intro h
    simp [Snap, h]
  · intro h hp
    simp [Snap, h, hp]
  · intro h hp
    simp [Snap, h, hp]

/-- Witness for C8 at the concrete snapshot scenario (not done, prior
snapshot `[stA, stB]`, `stA` superseded). -/
theorem Snap_merge_order_witness :
    (AppendStateSnapshot iterSnap stB).resources = iterSnap.resources ++ [stB] ∧
    Snap iterSnap = iterSnap.resources ++
      [stA, stB].filter (fun r => !(decide (r ∈ iterSnap.dones))) :=
  ⟨(Snap_merge_order iterSnap stB [stA, stB]).1,
   (Snap_merge_order iterSnap stB [stA, stB]).2.2.1 rfl rfl⟩

/-! ## Claim C5 (corrected): the post-hook and error wrapping in `Apply` -/

/-- C5 counterexample: at a concrete input where `step.Apply` fails with
`errStep` and the post-step hook fails with `errHook`, the post-hook is
invoked, but the error `Apply` returns wraps the hook's error only — the
underlying step error `errStep` is not in its cause chain, contradicting
the claim that the returned error wraps the underlying step error. -/
theorem Apply_posthook_claim_cex :
    (Apply iterPost (Step.create stA) (.unknownFail, some errStep)).postArgs =
      some (3, .unknownFail, some errStep) ∧
    (Apply iterPost (Step.create stA) (.unknownFail, some errStep)).err =
      some (.wrap "post-step event returned an error" errHook) ∧
    ¬ errStep ∈ errCauses (.wrap "post-step event returned an error" errHook) := by
  refine ⟨rfl, rfl, ?_⟩
  decide

/-- C5 (amended): whenever `step.Apply` runs and the duplicate-registration
error path is not taken, the post-step hook (if configured) is invoked
regardless of whether `step.Apply` succeeded or failed, receiving the
pre-hook's context value; the step's status code is returned unmasked, and
when the post-hook errors the returned error wraps the post-hook's own
error (superseding any step error). -/
theorem Apply_posthook_behavior (iter : IterState) (step : Step)
    (outcome : Status × Option GoErr) (hooks : EventsHooks) (ctx : Nat)
    (hev : iter.events = some hooks) (hpre : hooks.onPre step = (ctx, none))
    (hnodup : outcome.2 = none → step.logical = true →
      hasReg iter.regs step.urn = false) :
    (Apply iter step outcome).stepApplied = true ∧
    (Apply iter step outcome).postArgs = some (ctx, outcome.1, outcome.2) ∧
    (Apply iter step outcome).status = outcome.1 ∧
    (∀ pe, hooks.onPost ctx step outcome.1 outcome.2 = some pe →
      (Apply iter step outcome).err =
        some (.wrap "post-step event returned an error" pe)) ∧
    (hooks.onPost ctx step outcome.1 outcome.2 = none →
      (Apply iter step outcome).err = outcome.2) := by
  obtain ⟨st, er⟩ := outcome
  have key : Apply iter step (st, er) =
      { status := st,
        err := match hooks.onPost ctx step st er with
          | some pe => some (.wrap "post-step event returned an error" pe)
          | none => er,
        regs := match er with
          | none => if step.logical then (step.urn, step) :: iter.regs
                    else iter.regs
          | some _ => iter.regs,
        stepApplied := true,
        postArgs := some (ctx, st, er) } := by
    unfold Apply
    rw [hev]
    dsimp only
    rw [hpre]
    dsimp only
    cases er with
    | none =>
      by_cases hl : step.logical = true
      · have hr := hnodup rfl hl
        cases hpost : hooks.onPost ctx step st none <;> simp [hl, hr, hpost]
      · have hl2 : step.logical = false := by
          revert hl
          cases step.logical <;> simp
        cases hpost : hooks.onPost ctx step st none <;> simp [hl2, hpost]
    | some e =>
      cases hpost : hooks.onPost ctx step st (some e) <;> simp [hpost]
  rw [key]
  refine ⟨rfl, rfl, rfl, ?_, ?_⟩
  · intro pe hp
    rw [hp]
  · intro hp
    rw [hp]

/-- Witness for the amended C5 at the concrete post-hook-failure
scenario. -/
theorem Apply_posthook_behavior_witness :
    (Apply iterPost (Step.create stA) (.unknownFail, some errStep)).stepApplied
      = true ∧
    (Apply iterPost (Step.create stA) (.unknownFail, some errStep)).postArgs =
      some (3, .unknownFail, some errStep) ∧
    (Apply iterPost (Step.create stA) (.unknownFail, some errStep)).status =
      .unknownFail ∧
    (∀ pe, hooksPostFail.onPost 3 (Step.create stA) .unknownFail (some errStep)
        = some pe →
      (Apply iterPost (Step.create stA) (.unknownFail, some errStep)).err =
        some (.wrap "post-step event returned an error" pe)) ∧
    (hooksPostFail.onPost 3 (Step.create stA) .unknownFail (some errStep) = none →
      (Apply iterPost (Step.create stA) (.unknownFail, some errStep)).err =
        some errStep) :=
  Apply_posthook_behavior iterPost (Step.create stA) (.unknownFail, some errStep)
    hooksPostFail 3 rfl rfl (fun h => by cases h)

/-! ## Claim C6: output completion -/

theorem pmLookup_AddOutputs (cur outs : PropertyMap) (k : String) :
    pmLookup (AddOutputs cur outs) k =
      if outs.any (fun ov => ov.1 == k) then pmLookup outs k
      else pmLookup cur k := by
  induction cur with
  | nil =>
    cases hany : outs.any (fun ov => ov.1 == k) with
    | true => simp [AddOutputs, hany]
    | false =>
      have hnone : pmLookup outs k = none := by
        unfold pmLookup
        rw [List.find?_eq_none.mpr]
        · rfl
        · intro x hx hq
          have := List.any_eq_false.mp hany x hx
          simp [hq] at this
      have h0 : AddOutputs [] outs = outs := by
        simp [AddOutputs]
      rw [h0, hnone]
      simp [pmLookup]
  | cons kv cur ih =>
    cases hk : (kv.1 == k) with
    | true =>
      have hkeq : kv.1 = k := eq_of_beq hk
      cases hany : outs.any (fun ov => ov.1 == k) with
      | true =>
        have hpred : (!(outs.any fun ov => ov.1 == kv.1)) = false := by
          rw [hkeq, hany]
          rfl
        have hstep : AddOutputs (kv :: cur) outs = AddOutputs cur outs := by
          simp [AddOutputs, List.filter_cons, hpred]
        rw [hstep, ih]
        simp [hany]
      | false =>
        have hpred : (!(outs.any fun ov => ov.1 == kv.1)) = true := by
          rw [hkeq, hany]
          rfl
        have hstep : AddOutputs (kv :: cur) outs = kv :: AddOutputs cur outs := by
          simp [AddOutputs, List.filter_cons, hpred]
        rw [hstep]
        have h1 : List.find? (fun kv2 => kv2.1 == k) (kv :: AddOutputs cur outs)
            = some kv := List.find?_cons_of_pos _ hk
        have h2 : List.find? (fun kv2 => kv2.1 == k) (kv :: cur) = some kv :=
          List.find?_cons_of_pos _ hk
        simp [pmLookup, h1, h2]
    | false =>
      have hq : ¬ ((kv.1 == k) = true) := by
        simp [hk]
      have hskip : ∀ l : PropertyMap,
          List.find? (fun kv2 => kv2.1 == k) (kv :: l) =
          List.find? (fun kv2 => kv2.1 == k) l :=
        fun l => List.find?_cons_of_neg l hq
      have hlhs : pmLookup (AddOutputs (kv :: cur) outs) k =
          pmLookup (AddOutputs cur outs) k := by
        cases hpred : (!(outs.any fun ov => ov.1 == kv.1)) with
        | true =>
          have hstep : AddOutputs (kv :: cur) outs = kv :: AddOutputs cur outs := by
            simp [AddOutputs, List.filter_cons, hpred]
          rw [hstep]
          unfold pmLookup
          rw [hskip]
        | false =>
          have hstep : AddOutputs (kv :: cur) outs = AddOutputs cur outs := by
            simp [AddOutputs, List.filter_cons, hpred]
          rw [hstep]
      rw [hlhs, ih]
      have hrhs : pmLookup (kv :: cur) k = pmLookup cur k := by
        unfold pmLookup
        rw [hskip]
      rw [hrhs]

theorem lookupReg_removeReg_self (regs : List (URN × Step)) (u : URN) :
    lookupReg (removeReg regs u) u = none := by
  unfold lookupReg removeReg
  rw [List.find?_filter, List.find?_eq_none.mpr]
  · rfl
  · intro x hx
    simp

theorem Step_addOutputs_newState (s : Step) (outs : PropertyMap) (n0 : RState)
    (h : s.newState = some n0) :
    (s.addOutputs outs).newState =
      some { n0 with outputs := AddOutputs n0.outputs outs } := by
  cases s <;> simp_all [Step.newState, Step.addOutputs]

/-- C6: For a completion event whose URN is pending in `regs`,
`registerResourceOutputs` merges the event's outputs into the recorded
step's new state (event keys override same-named existing keys), removes
the URN from `regs`, invokes the `OnResourceOutputs` hook if configured,
and finally calls the event's `Done()` (not called when the hook errors);
a completion for a URN absent from `regs` hits a fatal assertion instead
of returning a recoverable error. -/
theorem registerResourceOutputs_contract (iter : IterState) (ev : OutsEvent)
    (reg reg2 : Step)
    (hreg : lookupReg iter.regs ev.urn = some reg)
    (hreg2 : reg2 = (match ev.outputs with
      | some outs => reg.addOutputs outs
      | none => reg)) :
    (registerResourceOutputs iter ev).merged = some reg2 ∧
    (registerResourceOutputs iter ev).regs = removeReg iter.regs ev.urn ∧
    lookupReg (registerResourceOutputs iter ev).regs ev.urn = none ∧
    (∀ outs n0, ev.outputs = some outs → reg.newState = some n0 →
      reg2.newState = some { n0 with outputs := AddOutputs n0.outputs outs } ∧
      ∀ k2, pmLookup (AddOutputs n0.outputs outs) k2 =
        if outs.any (fun ov => ov.1 == k2) then pmLookup outs k2
        else pmLookup n0.outputs k2) ∧
    (∀ hooks, iter.events = some hooks →
      (registerResourceOutputs iter ev).hookCalled = true ∧
      (hooks.onOutputs reg2 = none →
        (registerResourceOutputs iter ev).doneCalled = true ∧
        (registerResourceOutputs iter ev).err = none) ∧
      (∀ he, hooks.onOutputs reg2 = some he →
        (registerResourceOutputs iter ev).err =
          some (.wrap "resource complete event returned an error" he) ∧
        (registerResourceOutputs iter ev).doneCalled = false)) ∧
    (iter.events = none →
      (registerResourceOutputs iter ev).hookCalled = false ∧
      (registerResourceOutputs iter ev).doneCalled = true ∧
      (registerResourceOutputs iter ev).err = none) ∧
    (∀ ev2 : OutsEvent, lookupReg iter.regs ev2.urn = none →
      (registerResourceOutputs iter ev2).err = some (.assertion
        "cannot complete a resource whose registration isn't pending") ∧
      (registerResourceOutputs iter ev2).regs = iter.regs) := by
  have hmissing : ∀ ev2 : OutsEvent, lookupReg iter.regs ev2.urn = none →
      (registerResourceOutputs iter ev2).err = some (.assertion
        "cannot complete a resource whose registration isn't pending") ∧
      (registerResourceOutputs iter ev2).regs = iter.regs := by
    intro ev2 h2
    unfold registerResourceOutputs
    rw [h2]
    exact ⟨rfl, rfl⟩
  have key : ∀ P : ROResult → Prop,
      (∀ hooks he, iter.events = some hooks → hooks.onOutputs reg2 = some he →
        P { err := some (.wrap "resource complete event returned an error" he),
            regs := removeReg iter.regs ev.urn, merged := some reg2,
            hookCalled := true, doneCalled := false }) →
      (∀ hooks, iter.events = some hooks → hooks.onOutputs reg2 = none →
        P { err := none, regs := removeReg iter.regs ev.urn,
            merged := some reg2, hookCalled := true, doneCalled := true }) →
      (iter.events = none →
        P { err := none, regs := removeReg iter.regs ev.urn,
            merged := some reg2, hookCalled := false, doneCalled := true }) →
      P (registerResourceOutputs iter ev) := by
    intro P h1 h2 h3
    unfold registerResourceOutputs
    rw [hreg]
    dsimp only
    rw [← hreg2]
    cases hev : iter.events with
    | some hooks =>
      dsimp only
      cases hout : hooks.onOutputs reg2 with
      | some he => exact h1 hooks he hev hout
      | none => exact h2 hooks hev hout
    | none => exact h3 hev
  refine ⟨?_, ?_, ?_, ?_, ?_, ?_, hmissing⟩
  · exact key (fun r => r.merged = some reg2)
      (fun _ _ _ _ => rfl) (fun _ _ _ => rfl) (fun _ => rfl)
  · exact key (fun r => r.regs = removeReg iter.regs ev.urn)
      (fun _ _ _ _ => rfl) (fun _ _ _ => rfl) (fun _ => rfl)
  · have h := key (fun r => r.regs = removeReg iter.regs ev.urn)
      (fun _ _ _ _ => rfl) (fun _ _ _ => rfl) (fun _ => rfl)
    rw [h]
    exact lookupReg_removeReg_self iter.regs ev.urn
  · intro outs n0 houts hn0
    constructor
    · rw [hreg2, houts]
      exact Step_addOutputs_newState reg outs n0 hn0
    · intro k2
      exact pmLookup_AddOutputs n0.outputs outs k2
  · intro hooks hev
    refine ⟨?_, ?_, ?_⟩
    · exact key (fun r => r.hookCalled = true)
        (fun _ _ _ _ => rfl) (fun _ _ _ => rfl)
        (fun hn => by rw [hev] at hn; cases hn)
    · intro hout
      refine key (fun r => r.doneCalled = true ∧ r.err = none) ?_ ?_ ?_
      · intro hooks2 he hev2 hout2
        rw [hev] at hev2
        cases hev2
        rw [hout] at hout2
        cases hout2
      · intro _ _ _
        exact ⟨rfl, rfl⟩
      · intro hn
        rw [hev] at hn
        cases hn
    · intro he hout
      refine key (fun r => r.err =
          some (.wrap "resource complete event returned an error" he) ∧
          r.doneCalled = false) ?_ ?_ ?_
      · intro hooks2 he2 hev2 hout2
        rw [hev] at hev2
        cases hev2
        rw [hout] at hout2
        cases hout2
        exact ⟨rfl, rfl⟩
      · intro hooks2 hev2 hout2
        rw [hev] at hev2
        cases hev2
        rw [hout] at hout2
        cases hout2
      · intro hn
        rw [hev] at hn
        cases hn
  · intro hev
    refine key (fun r => r.hookCalled = false ∧ r.doneCalled = true ∧
        r.err = none) ?_ ?_ ?_
    · intro hooks2 he2 hev2 _
      rw [hev] at hev2
      cases hev2
    · intro hooks2 hev2 _
      rw [hev] at hev2
      cases hev2
    · intro _
      exact ⟨rfl, rfl, rfl⟩

/-- Witness for C6 at the concrete pending-registration scenario. -/
theorem registerResourceOutputs_contract_witness :
    (registerResourceOutputs iterRegs evOuts).merged =
      some ((Step.create stA).addOutputs pmB) ∧
    (registerResourceOutputs iterRegs evOuts).regs =
      removeReg iterRegs.regs evOuts.urn ∧
    lookupReg (registerResourceOutputs iterRegs evOuts).regs evOuts.urn = none ∧
    (registerResourceOutputs iterRegs evOuts).doneCalled = true :=
  have h := registerResourceOutputs_contract iterRegs evOuts (Step.create stA)
    ((Step.create stA).addOutputs pmB) (by decide) rfl
  ⟨h.1, h.2.1, h.2.2.1, (h.2.2.2.2.2.1 rfl).2.1⟩

/-! ## Claim C3: delete computation and drain order -/

theorem deleteWalk_eq (cond : RState → Bool) (l : List RState) :
    ∀ n, deleteWalk cond l n = ((l.take n).reverse).filter cond := by
  intro n
  induction n with
  | zero => simp [deleteWalk]
  | succ i ih =>
    unfold deleteWalk
    cases hget : l[i]? with
    | some res =>
      have htake : l.take (i + 1) = l.take i ++ [res] := by
        rw [List.take_succ, hget]
        rfl
      rw [htake, List.reverse_append]
      cases hc : cond res <;>
        simp [hc, ih, List.filter_cons]
    | none =>
      have htake : l.take (i + 1) = l.take i := by
        rw [List.take_succ, hget]
        simp
      rw [htake, ih]

theorem computeDeletes_eq (iter : IterState) (p : List RState)
    (hprev : iter.prev = some p) :
    computeDeletes iter = p.reverse.filter (delCond iter) := by
  unfold computeDeletes
  rw [hprev]
  dsimp only
  rw [deleteWalk_eq, List.take_length]

theorem delCond_iff (iter : IterState) (res : RState) :
    delCond iter res = true ↔
      (res.delete = true ∨ (res.urn ∉ iter.sames ∧ res.urn ∉ iter.updates) ∨
        res.urn ∈ iter.replaces) := by
  unfold delCond
  simp [List.contains, Bool.or_eq_true, Bool.and_eq_true, or_assoc]

theorem nextBody_drain {s : IterState} {d : RState} {rest : List RState}
    (hsrc : s.srcdone = true) (hq : s.stepqueue = [])
    (hdel : s.delqueue = d :: rest) :
    nextBody s = .ret (some (Step.delete d (s.replaces.contains d.urn))) none
      { s with delqueue := rest, deletes := d.urn :: s.deletes } := by
  unfold nextBody
  rw [hq]
  dsimp only
  rw [if_pos hsrc, hdel]

theorem nextBody_drain_empty {s : IterState} (hsrc : s.srcdone = true)
    (hq : s.stepqueue = []) (hdel : s.delqueue = []) :
    nextBody s = .ret none none { s with done := true } := by
  unfold nextBody
  rw [hq]
  dsimp only
  rw [if_pos hsrc, hdel]

theorem drain_steps (dq : List RState) : ∀ s : IterState, s.srcdone = true →
    s.done = false → s.stepqueue = [] → s.delqueue = dq →
    nextSteps dq.length s =
      dq.map (fun d => Step.delete d (s.replaces.contains d.urn)) := by
  induction dq with
  | nil =>
    intro s _ _ _ _
    simp [nextSteps]
  | cons d rest ih =>
    intro s hsrc hdone hq hdel
    have hnext : Next s =
        ((some (Step.delete d (s.replaces.contains d.urn)), none),
          { s with delqueue := rest, deletes := d.urn :: s.deletes }) := by
      rw [Next_eq, if_neg (by simp [hdone]), nextBody_drain hsrc hq hdel]
    show nextSteps (rest.length + 1) s = _
    unfold nextSteps
    rw [hnext]
    dsimp only
    rw [List.map_cons]
    exact congrArg _ (ih { s with delqueue := rest, deletes := d.urn :: s.deletes }
      hsrc hdone hq rfl)

/-- C3: `computeDeletes` walks the prior snapshot strictly in reverse index
order (its result is the reverse of the prior list filtered by the enqueue
condition); a prior resource is enqueued iff it is delete-marked, or its
URN is in neither `sames` nor `updates`, or its URN is in `replaces`; and
the Delete steps emitted while draining appear in exactly that reverse
prior-snapshot order. -/
theorem computeDeletes_reverse_order (s : IterState) (p : List RState)
    (hprev : s.prev = some p) (hsrc : s.srcdone = true) (hdone : s.done = false)
    (hq : s.stepqueue = []) (hdel : s.delqueue = computeDeletes s) :
    computeDeletes s = p.reverse.filter (delCond s) ∧
    (∀ res, res ∈ computeDeletes s ↔ res ∈ p ∧
      (res.delete = true ∨ (res.urn ∉ s.sames ∧ res.urn ∉ s.updates) ∨
        res.urn ∈ s.replaces)) ∧
    nextSteps s.delqueue.length s =
      (p.reverse.filter (delCond s)).map
        (fun d => Step.delete d (s.replaces.contains d.urn)) := by
  have heq := computeDeletes_eq s p hprev
  refine ⟨heq, ?_, ?_⟩
  · intro res
    rw [heq, List.mem_filter, List.mem_reverse, delCond_iff]
  · rw [hdel, heq]
    exact drain_steps (p.reverse.filter (delCond s)) s hsrc hdone hq
      (by rw [hdel, heq])

/-- Witness for C3 at the concrete mid-drain scenario (prior `[stA, stB]`,
nothing registered, so both priors are enqueued in reverse order). -/
theorem computeDeletes_reverse_order_witness :
    computeDeletes iterDrain = [stA, stB].reverse.filter (delCond iterDrain) ∧
    (stB ∈ computeDeletes iterDrain ↔ stB ∈ [stA, stB] ∧
      (stB.delete = true ∨
        (stB.urn ∉ iterDrain.sames ∧ stB.urn ∉ iterDrain.updates) ∨
        stB.urn ∈ iterDrain.replaces)) ∧
    nextSteps iterDrain.delqueue.length iterDrain =
      ([stA, stB].reverse.filter (delCond iterDrain)).map
        (fun d => Step.delete d (iterDrain.replaces.contains d.urn)) :=
  have h := computeDeletes_reverse_order iterDrain [stA, stB] rfl rfl rfl rfl
    (by decide)
  ⟨h.1, h.2.1 stB, h.2.2⟩

/-! ## Claim C2: snapshot topology -/

theorem TopoFrom_mono : ∀ (l : List RState) (seen seen' : List URN),
    (∀ x, x ∈ seen → x ∈ seen') → TopoFrom seen l → TopoFrom seen' l := by
  intro l
  induction l with
  | nil =>
    intro seen seen' hsub h
    trivial
  | cons r rest ih =>
    intro seen seen' hsub h
    refine ⟨fun hp => hsub _ (h.1 hp), ?_⟩
    refine ih (r.urn :: seen) (r.urn :: seen') ?_ h.2
    intro x hx
    cases List.mem_cons.mp hx with
    | inl he => exact he ▸ List.mem_cons_self _ _
    | inr hm => exact List.mem_cons_of_mem _ (hsub _ hm)

theorem TopoFrom_append : ∀ (l1 l2 : List RState) (seen : List URN),
    TopoFrom seen l1 → TopoFrom (l1.map RState.urn ++ seen) l2 →
    TopoFrom seen (l1 ++ l2) := by
  intro l1
  induction l1 with
  | nil =>
    intro l2 seen _ h2
    simpa using h2
  | cons r t ih =>
    intro l2 seen h1 h2
    refine ⟨h1.1, ?_⟩
    refine ih l2 (r.urn :: seen) h1.2 (TopoFrom_mono l2 _ _ ?_ h2)
    intro x hx
    rcases List.mem_append.mp hx with hm | hs
    · rcases List.mem_map.mp hm with ⟨a, ha, hax⟩
      rcases List.mem_cons.mp ha with rfl | hat
      · refine List.mem_append.mpr (Or.inr ?_)
        rw [← hax]
        exact List.mem_cons_self _ _
      · exact List.mem_append.mpr (Or.inl (List.mem_map.mpr ⟨a, hat, hax⟩))
    · exact List.mem_append.mpr (Or.inr (List.mem_cons_of_mem _ hs))

theorem TopoFrom_filter : ∀ (p : List RState) (pred : RState → Bool)
    (seenP seenM : List URN),
    TopoFrom seenP p → (∀ u, u ∈ seenP → u ∈ seenM) →
    (∀ r, r ∈ p → pred r = false → r.urn ∈ seenM) →
    TopoFrom seenM (p.filter pred) := by
  intro p
  induction p with
  | nil =>
    intro pred seenP seenM _ _ _
    simp only [List.filter_nil]
    trivial
  | cons r t ih =>
    intro pred seenP seenM h hsub hdrop
    rw [List.filter_cons]
    cases hp : pred r with
    | true =>
      simp only [if_pos]
      refine ⟨fun hpar => hsub _ (h.1 hpar), ?_⟩
      refine ih pred (r.urn :: seenP) (r.urn :: seenM) h.2 ?_ ?_
      · intro u hu
        cases List.mem_cons.mp hu with
        | inl he => exact he ▸ List.mem_cons_self _ _
        | inr hm => exact List.mem_cons_of_mem _ (hsub _ hm)
      · intro r2 hr2 hp2
        exact List.mem_cons_of_mem _ (hdrop r2 (List.mem_cons_of_mem _ hr2) hp2)
    | false =>
      simp only [Bool.false_eq_true, if_false]
      refine ih pred (r.urn :: seenP) seenM h.2 ?_ ?_
      · intro u hu
        cases List.mem_cons.mp hu with
        | inl he => exact he ▸ hdrop r (List.mem_cons_self _ _) hp
        | inr hm => exact hsub _ hm
      · intro r2 hr2 hp2
        exact hdrop r2 (List.mem_cons_of_mem _ hr2) hp2

theorem TopoFrom_get : ∀ (l : List RState) (seen : List URN), TopoFrom seen l →
    ∀ i, ∀ hi : i < l.length, l[i].parent ≠ "" →
      l[i].parent ∈ seen ∨
        ∃ j, ∃ hj : j < l.length, j < i ∧ l[j].urn = l[i].parent := by
  intro l
  induction l with
  | nil =>
    intro seen _ i hi
    exact absurd hi (by simp)
  | cons r t ih =>
    intro seen h i hi hpar
    cases i with
    | zero =>
      left
      exact h.1 (by simpa using hpar)
    | succ i2 =>
      have hi2 : i2 < t.length := by simpa using hi
      have hrec := ih (r.urn :: seen) h.2 i2 hi2 (by simpa using hpar)
      cases hrec with
      | inl hmem =>
        cases List.mem_cons.mp hmem with
        | inl heq =>
          right
          exact ⟨0, by simp, Nat.succ_pos _, by simpa using heq.symm⟩
        | inr hseen =>
          left
          exact hseen
      | inr hex =>
        obtain ⟨j, hj, hlt, hurn⟩ := hex
        right
        exact ⟨j + 1, by simpa using hj, by omega, by simpa using hurn⟩

theorem TopoFrom_of_get : ∀ (l : List RState) (seen : List URN),
    (∀ i, ∀ hi : i < l.length, l[i].parent ≠ "" →
      l[i].parent ∈ seen ∨
        ∃ j, ∃ hj : j < l.length, j < i ∧ l[j].urn = l[i].parent) →
    TopoFrom seen l := by
  intro l
  induction l with
  | nil =>
    intro seen _
    trivial
  | cons r t ih =>
    intro seen h
    constructor
    · intro hp
      have h0 := h 0 (by simp) (by simpa using hp)
      cases h0 with
      | inl hmem => simpa using hmem
      | inr hex =>
        obtain ⟨j, hj, hlt, _⟩ := hex
        omega
    · refine ih (r.urn :: seen) ?_
      intro i hi hp
      have hi1 : i + 1 < (r :: t).length := by simpa using hi
      have hrec := h (i + 1) hi1 (by simpa using hp)
      cases hrec with
      | inl hmem =>
        left
        exact List.mem_cons_of_mem _ hmem
      | inr hex =>
        obtain ⟨j, hj, hlt, hurn⟩ := hex
        cases j with
        | zero =>
          left
          have : r.urn = t[i].parent := by simpa using hurn
          rw [← this]
          exact List.mem_cons_self _ _
        | succ j2 =>
          right
          have hj2 : j2 < t.length := by simpa using hj
          exact ⟨j2, hj2, by omega, by simpa using hurn⟩

theorem TopoSorted_of_TopoFrom (l : List RState) (h : TopoFrom [] l) :
    TopoSorted l := by
  intro i hi hp
  cases TopoFrom_get l [] h i hi hp with
  | inl hmem => exact absurd hmem (by simp)
  | inr hex => exact hex

theorem TopoFrom_of_TopoSorted (l : List RState) (h : TopoSorted l) :
    TopoFrom [] l :=
  TopoFrom_of_get l [] (fun i hi hp => .inr (h i hi hp))

/-- C2: Every snapshot produced by `Snap` is a valid topological sort — for
any resource at index `i` of the returned list whose parent URN is
non-empty, some index `j < i` holds a resource with that URN.  The
hypotheses are the wellformedness of the two source lists: the current
plan's committed list and the prior snapshot are themselves topologically
sorted, and every prior resource marked done is superseded by a same-URN
resource in the current list.  In particular this covers the mid-plan
merge, where priors not in `dones` are appended after the current list. -/
theorem Snap_topological (iter : IterState)
    (hres : TopoSorted iter.resources)
    (hps : TopoSorted (prevList iter))
    (hcover : ∀ r, r ∈ prevList iter → r ∈ iter.dones →
      ∃ r2, r2 ∈ iter.resources ∧ r2.urn = r.urn) :
    TopoSorted (Snap iter) := by
  unfold Snap
  cases hd : iter.done with
  | true => simpa using hres
  | false =>
    cases hp : iter.prev with
    | none => simpa using hres
    | some p =>
      have hpl : prevList iter = p := by
        simp [prevList, hp]
      rw [hpl] at hps hcover
      simp only [Bool.not_false, if_pos]
      apply TopoSorted_of_TopoFrom
      apply TopoFrom_append
      · exact TopoFrom_of_TopoSorted _ hres
      · refine TopoFrom_filter p _ [] (iter.resources.map RState.urn ++ []) ?_ ?_ ?_
        · exact TopoFrom_of_TopoSorted _ hps
        · intro u hu
          exact absurd hu (by simp)
        · intro r hr hpred
          have hdone2 : r ∈ iter.dones := by
            simpa using hpred
          obtain ⟨r2, hr2, hurn⟩ := hcover r hr hdone2
          simp only [List.append_nil, List.mem_map]
          exact ⟨r2, hr2, hurn⟩

/-- Witness for C2 at the concrete snapshot scenario: current list
`[stA modulo new inputs]`, prior `[stA, stB]` with `stB` a child of `stA`,
`stA` superseded. -/
theorem Snap_topological_witness : TopoSorted (Snap iterSnap) :=
  Snap_topological iterSnap (by decide) (by decide)
    (fun r _ hd => by
      refine ⟨{ stA with inputs := pmB }, List.mem_singleton.mpr rfl, ?_⟩
      have hra : r = stA := List.mem_singleton.mp hd
      rw [hra])

/-! ## Shape analysis of `makeRegisterResouceSteps` (claims C1, C4, C7) -/

/-- Every run of `makeRegisterResouceSteps` records the URN in `urns` and
touches at most one classification set; a classification happens only when
the URN is fresh, and a `replaces` entry only when an old state exists.
When the run succeeds, the result follows the decision tree exactly. -/
theorem mrrs_shape (iter : IterState) (e : RegEvent)
    (r : Except GoErr (List Step)) (iter' : IterState) (tr : List PCall)
    (h : makeRegisterResouceSteps iter e = (r, iter', tr)) :
    (iter' = withURN iter e ∨
     (iter.urns.contains (eventURN iter e) = false ∧
       (iter' = withCreate iter e ∨
        iter' = withSame iter e ∨
        iter' = withUpdate iter e ∨
        ((∃ old, Olds iter.prev (eventURN iter e) = some old) ∧
          iter' = withReplace iter e)))) ∧
    (∀ steps, r = .ok steps →
      iter.urns.contains (eventURN iter e) = false ∧
      ((Olds iter.prev (eventURN iter e) = none ∧
          steps = [Step.create (newStateOf iter e)] ∧
          iter' = withCreate iter e) ∨
       (∃ old, Olds iter.prev (eventURN iter e) = some old ∧
         ((DeepEquals old.inputs (checkedInputs e) = true ∧
             steps = [Step.same old (newStateOf iter e)] ∧
             iter' = withSame iter e) ∨
          (DeepEquals old.inputs (checkedInputs e) = false ∧
            (((diffOf e).replace = true ∧
                steps = [Step.createReplacement old
                           (if e.goal.custom then newStateOf2 iter e
                            else newStateOf iter e) (diffOf e).replaceKeys,
                         Step.replace old
                           (if e.goal.custom then newStateOf2 iter e
                            else newStateOf iter e) (diffOf e).replaceKeys] ∧
                iter' = withReplace iter e) ∨
             ((diffOf e).replace = false ∧
                steps = [Step.update old (newStateOf iter e)
                           (diffOf e).stableKeys] ∧
                iter' = withUpdate iter e)))))))
    := by
  obtain ⟨⟨gtyp, gname, gcustom, gprops, gparent⟩,
    ⟨provErr, check1, check2, diffRes⟩, analyzers⟩ := e
  unfold makeRegisterResouceSteps at h
  dsimp only [NewState] at h
  cases gcustom with
  | true =>
    cases provErr with
    | some pe =>
      simp only [Option.isSome_some, Bool.and_true, eq_self_iff_true, if_true,
        Option.getD_some] at h
      simp only [Prod.mk.injEq] at h
      exact ⟨Or.inl h.2.1.symm,
        fun steps hrs => absurd (h.1.trans hrs)
          (fun hh => Except.noConfusion hh)⟩
    | none =>
      simp only [Option.isSome_none, Bool.and_false, Bool.false_eq_true,
        if_false, eq_self_iff_true, if_true] at h
      cases check1 with
      | error er =>
        dsimp only at h
        simp only [Prod.mk.injEq] at h
        exact ⟨Or.inl h.2.1.symm,
          fun steps hrs => absurd (h.1.trans hrs)
            (fun hh => Except.noConfusion hh)⟩
      | ok p =>
        obtain ⟨ins, fails⟩ := p
        dsimp only at h
        rcases har : runAnalyzers gtyp ins analyzers with ⟨ares, tr2⟩
        rw [har] at h
        cases ares with
        | error er2 =>
          dsimp only at h
          simp only [Prod.mk.injEq] at h
          exact ⟨Or.inl h.2.1.symm,
            fun steps hrs => absurd (h.1.trans hrs)
              (fun hh => Except.noConfusion hh)⟩
        | ok anBad =>
          dsimp only at h
          split at h
          · -- invalid
            simp only [Prod.mk.injEq] at h
            exact ⟨Or.inl h.2.1.symm,
              fun steps hrs => absurd (h.1.trans hrs)
                (fun hh => Except.noConfusion hh)⟩
          · rename_i hinv
            simp only [Bool.or_eq_true, not_or, Bool.not_eq_true] at hinv
            have hdup := hinv.1.1
            cases hold : Olds iter.prev
                (NewURN iter.targetName iter.sourcePkg gtyp gname) with
            | none =>
              rw [hold] at h
              dsimp only at h
              simp only [Prod.mk.injEq] at h
              obtain ⟨hr, hst, htr⟩ := h
              refine ⟨Or.inr ⟨hdup, Or.inl hst.symm⟩, ?_⟩
              intro steps hrs
              rw [hrs] at hr
              injection hr with hr2
              exact ⟨hdup, Or.inl ⟨hold, hr2.symm, hst.symm⟩⟩
            | some old =>
              rw [hold] at h
              dsimp only at h
              split at h
              · -- type assertion failure
                simp only [Prod.mk.injEq] at h
                exact ⟨Or.inl h.2.1.symm,
                  fun steps hrs => absurd (h.1.trans hrs)
                    (fun hh => Except.noConfusion hh)⟩
              · split at h
                · -- DeepEquals: Same
                  rename_i hde
                  simp only [Prod.mk.injEq] at h
                  obtain ⟨hr, hst, htr⟩ := h
                  refine ⟨Or.inr ⟨hdup, Or.inr (Or.inl hst.symm)⟩, ?_⟩
                  intro steps hrs
                  rw [hrs] at hr
                  injection hr with hr2
                  exact ⟨hdup, Or.inr ⟨old, hold,
                    Or.inl ⟨hde, hr2.symm, hst.symm⟩⟩⟩
                · rename_i hde
                  have hde2 : DeepEquals old.inputs ins = false := by
                    revert hde
                    cases DeepEquals old.inputs ins <;> simp
                  cases diffRes with
                  | error er3 =>
                    dsimp only at h
                    simp only [Prod.mk.injEq] at h
                    exact ⟨Or.inl h.2.1.symm,
                      fun steps hrs => absurd (h.1.trans hrs)
                        (fun hh => Except.noConfusion hh)⟩
                  | ok d =>
                    dsimp only at h
                    split at h
                    · -- replace branch
                      rename_i hrep
                      cases check2 with
                      | error er4 =>
                        dsimp only at h
                        simp only [Prod.mk.injEq] at h
                        exact ⟨Or.inr ⟨hdup, Or.inr (Or.inr (Or.inr
                            ⟨⟨old, hold⟩, h.2.1.symm⟩))⟩,
                          fun steps hrs => absurd (h.1.trans hrs)
                            (fun hh => Except.noConfusion hh)⟩
                      | ok p2 =>
                        obtain ⟨ins2, fails2⟩ := p2
                        dsimp only at h
                        split at h
                        · -- check-2 failures: fatal
                          simp only [Prod.mk.injEq] at h
                          exact ⟨Or.inr ⟨hdup, Or.inr (Or.inr (Or.inr
                              ⟨⟨old, hold⟩, h.2.1.symm⟩))⟩,
                            fun steps hrs => absurd (h.1.trans hrs)
                              (fun hh => Except.noConfusion hh)⟩
                        · -- replacement steps
                          simp only [Prod.mk.injEq] at h
                          obtain ⟨hr, hst, htr⟩ := h
                          refine ⟨Or.inr ⟨hdup, Or.inr (Or.inr (Or.inr
                              ⟨⟨old, hold⟩, hst.symm⟩))⟩, ?_⟩
                          intro steps hrs
                          rw [hrs] at hr
                          injection hr with hr2
                          exact ⟨hdup, Or.inr ⟨old, hold,
                            Or.inr ⟨hde2, Or.inl ⟨hrep, hr2.symm, hst.symm⟩⟩⟩⟩
                    · -- update branch
                      rename_i hrep
                      have hrep2 : d.replace = false := by
                        revert hrep
                        cases d.replace <;> simp
                      simp only [Prod.mk.injEq] at h
                      obtain ⟨hr, hst, htr⟩ := h
                      refine ⟨Or.inr ⟨hdup,
                        Or.inr (Or.inr (Or.inl hst.symm))⟩, ?_⟩
                      intro steps hrs
                      rw [hrs] at hr
                      injection hr with hr2
                      exact ⟨hdup, Or.inr ⟨old, hold,
                        Or.inr ⟨hde2, Or.inr ⟨hrep2, hr2.symm, hst.symm⟩⟩⟩⟩
  | false =>
    simp only [Bool.false_and, Bool.false_eq_true, if_false] at h
    try dsimp only at h
    rcases har : runAnalyzers gtyp gprops analyzers with ⟨ares, tr2⟩
    rw [har] at h
    cases ares with
    | error er2 =>
      dsimp only at h
      simp only [Prod.mk.injEq] at h
      exact ⟨Or.inl h.2.1.symm,
        fun steps hrs => absurd (h.1.trans hrs)
          (fun hh => Except.noConfusion hh)⟩
    | ok anBad =>
      dsimp only at h
      split at h
      · simp only [Prod.mk.injEq] at h
        exact ⟨Or.inl h.2.1.symm,
          fun steps hrs => absurd (h.1.trans hrs)
            (fun hh => Except.noConfusion hh)⟩
      · rename_i hinv
        simp only [Bool.or_eq_true, not_or, Bool.not_eq_true] at hinv
        have hdup := hinv.1.1
        cases hold : Olds iter.prev
            (NewURN iter.targetName iter.sourcePkg gtyp gname) with
        | none =>
          rw [hold] at h
          dsimp only at h
          simp only [Prod.mk.injEq] at h
          obtain ⟨hr, hst, htr⟩ := h
          refine ⟨Or.inr ⟨hdup, Or.inl hst.symm⟩, ?_⟩
          intro steps hrs
          rw [hrs] at hr
          injection hr with hr2
          exact ⟨hdup, Or.inl ⟨hold, hr2.symm, hst.symm⟩⟩
        | some old =>
          rw [hold] at h
          dsimp only at h
          split at h
          · simp only [Prod.mk.injEq] at h
            exact ⟨Or.inl h.2.1.symm,
              fun steps hrs => absurd (h.1.trans hrs)
                (fun hh => Except.noConfusion hh)⟩
          · split at h
            · rename_i hde
              simp only [Prod.mk.injEq] at h
              obtain ⟨hr, hst, htr⟩ := h
              refine ⟨Or.inr ⟨hdup, Or.inr (Or.inl hst.symm)⟩, ?_⟩
              intro steps hrs
              rw [hrs] at hr
              injection hr with hr2
              exact ⟨hdup, Or.inr ⟨old, hold,
                Or.inl ⟨hde, hr2.symm, hst.symm⟩⟩⟩
            · rename_i hde
              have hde2 : DeepEquals old.inputs gprops = false := by
                revert hde
                cases DeepEquals old.inputs gprops <;> simp
              -- the zero diff's replace flag is false, so this is an update
              simp only [Prod.mk.injEq] at h
              obtain ⟨hr, hst, htr⟩ := h
              refine ⟨Or.inr ⟨hdup,
                Or.inr (Or.inr (Or.inl hst.symm))⟩, ?_⟩
              intro steps hrs
              rw [hrs] at hr
              injection hr with hr2
              exact ⟨hdup, Or.inr ⟨old, hold,
                Or.inr ⟨hde2, Or.inr ⟨rfl, hr2.symm, hst.symm⟩⟩⟩⟩

/-! ## Claim C1: the registration decision tree -/

/-- C1: For every registration event that passes validation (the step
computation succeeds), the classification follows exactly this decision
tree: no old state → record in `creates`, return `[Create]`; old state
with `DeepEquals` old/checked inputs → record in `sames`, return `[Same]`;
inputs differ and the provider diff says replace → record in `replaces`,
return `[CreateReplacement, Replace]`; otherwise record in `updates`,
return `[Update]`.  A logical (non-custom) resource, having no provider,
never takes the replace branch. -/
theorem makeRegisterResouceSteps_decision_tree (iter : IterState) (e : RegEvent)
    (steps : List Step) (iter' : IterState) (tr : List PCall)
    (h : makeRegisterResouceSteps iter e = (.ok steps, iter', tr)) :
    (Olds iter.prev (eventURN iter e) = none →
      steps.map Step.op = [.create] ∧ iter' = withCreate iter e) ∧
    (∀ old, Olds iter.prev (eventURN iter e) = some old →
      DeepEquals old.inputs (checkedInputs e) = true →
      steps.map Step.op = [.same] ∧ iter' = withSame iter e) ∧
    (∀ old, Olds iter.prev (eventURN iter e) = some old →
      DeepEquals old.inputs (checkedInputs e) = false →
      (diffOf e).replace = true →
      steps.map Step.op = [.createReplacement, .replace] ∧
      iter' = withReplace iter e) ∧
    (∀ old, Olds iter.prev (eventURN iter e) = some old →
      DeepEquals old.inputs (checkedInputs e) = false →
      (diffOf e).replace = false →
      steps.map Step.op = [.update] ∧ iter' = withUpdate iter e) ∧
    (e.goal.custom = false →
      iter'.replaces = iter.replaces ∧
      steps.map Step.op ≠ [.createReplacement, .replace]) := by
  have hshape := (mrrs_shape iter e (.ok steps) iter' tr h).2 steps rfl
  obtain ⟨hdup, hcases⟩ := hshape
  refine ⟨?_, ?_, ?_, ?_, ?_⟩
  · intro hold
    rcases hcases with ⟨_, hsteps, hiter⟩ | ⟨old, hold2, _⟩
    · rw [hsteps, hiter]
      exact ⟨rfl, rfl⟩
    · rw [hold] at hold2
      exact Option.noConfusion hold2
  · intro old hold hde
    rcases hcases with ⟨hold2, _, _⟩ | ⟨old2, hold2, hcc⟩
    · rw [hold] at hold2
      exact Option.noConfusion hold2
    · rw [hold] at hold2
      injection hold2 with hold3
      subst hold3
      rcases hcc with ⟨_, hsteps, hiter⟩ | ⟨hde2, _⟩
      · rw [hsteps, hiter]
        exact ⟨rfl, rfl⟩
      · rw [hde] at hde2
        exact Bool.noConfusion hde2
  · intro old hold hde hrep
    rcases hcases with ⟨hold2, _, _⟩ | ⟨old2, hold2, hcc⟩
    · rw [hold] at hold2
      exact Option.noConfusion hold2
    · rw [hold] at hold2
      injection hold2 with hold3
      subst hold3
      rcases hcc with ⟨hde2, _, _⟩ | ⟨_, ⟨_, hsteps, hiter⟩ | ⟨hrep2, _⟩⟩
      · rw [hde] at hde2
        exact Bool.noConfusion hde2
      · rw [hsteps, hiter]
        cases hc : e.goal.custom <;> simp [Step.op]
      · rw [hrep] at hrep2
        exact Bool.noConfusion hrep2
  · intro old hold hde hrep
    rcases hcases with ⟨hold2, _, _⟩ | ⟨old2, hold2, hcc⟩
    · rw [hold] at hold2
      exact Option.noConfusion hold2
    · rw [hold] at hold2
      injection hold2 with hold3
      subst hold3
      rcases hcc with ⟨hde2, _, _⟩ | ⟨_, ⟨hrep2, _⟩ | ⟨_, hsteps, hiter⟩⟩
      · rw [hde] at hde2
        exact Bool.noConfusion hde2
      · rw [hrep] at hrep2
        exact Bool.noConfusion hrep2
      · rw [hsteps, hiter]
        exact ⟨rfl, rfl⟩
  · intro hc
    have hzero : (diffOf e).replace = false := by
      unfold diffOf
      rw [hc]
      rfl
    rcases hcases with ⟨_, hsteps, hiter⟩ | ⟨old, _, hcc⟩
    · rw [hsteps, hiter]
      exact ⟨rfl, by simp [Step.op]⟩
    · rcases hcc with ⟨_, hsteps, hiter⟩ | ⟨_, ⟨hrep2, _⟩ | ⟨_, hsteps, hiter⟩⟩
      · rw [hsteps, hiter]
        exact ⟨rfl, by simp [Step.op]⟩
      · rw [hzero] at hrep2
        exact Bool.noConfusion hrep2
      · rw [hsteps, hiter]
        exact ⟨rfl, by simp [Step.op]⟩

/-- Witness for C1 at the concrete creation scenario (no prior state). -/
theorem makeRegisterResouceSteps_decision_tree_witness :
    [Step.create (newStateOf iterReg evCreate)].map Step.op = [StepOp.create] ∧
    withCreate iterReg evCreate = withCreate iterReg evCreate :=
  (makeRegisterResouceSteps_decision_tree iterReg evCreate
    [Step.create (newStateOf iterReg evCreate)] (withCreate iterReg evCreate)
    [PCall.check (eventURN iterReg evCreate) none pmA] rfl).1 rfl

/-! ## Claim C4: check failures — pass 1 non-fatal, pass 2 fatal -/

theorem runAnalyzers_all_ok (typ : String) (inputs : PropertyMap) :
    ∀ as : List (Except GoErr (List AnalyzeFailure)),
    (∀ a ∈ as, a = .ok []) →
    runAnalyzers typ inputs as =
      (.ok false, as.map (fun _ => PCall.analyze typ inputs)) := by
  intro as
  induction as with
  | nil =>
    intro _
    rfl
  | cons a rest ih =>
    intro h
    have ha : a = .ok [] := h a (List.mem_cons_self _ _)
    subst ha
    unfold runAnalyzers
    rw [ih (fun x hx => h x (List.mem_cons_of_mem _ hx))]
    rfl

theorem runAnalyzers_error (typ : String) (inputs : PropertyMap) :
    ∀ (pre post : List (Except GoErr (List AnalyzeFailure))) (aerr : GoErr),
    (∀ a ∈ pre, ∃ fs, a = .ok fs) →
    ∃ tr2, runAnalyzers typ inputs (pre ++ .error aerr :: post) =
      (.error aerr, tr2) := by
  intro pre
  induction pre with
  | nil =>
    intro post aerr _
    exact ⟨_, rfl⟩
  | cons a rest ih =>
    intro post aerr h
    obtain ⟨fs, hfs⟩ := h a (List.mem_cons_self _ _)
    subst hfs
    obtain ⟨tr2, htr⟩ := ih post aerr (fun x hx => h x (List.mem_cons_of_mem _ hx))
    refine ⟨PCall.analyze typ inputs :: tr2, ?_⟩
    rw [List.cons_append]
    unfold runAnalyzers
    rw [htr]

/-- C4: Check failures are fatal in pass 2 but not in pass 1.  (a) When the
first `provider.Check` (called with the old inputs) reports failures, the
planner flags the resource invalid but still runs every analyzer before
returning the terminal validation error — the analyzer calls appear in the
trace after the first check.  (b) The no-short-circuit behavior is
observable: an analyzer error is returned in preference to the validation
error even though pass 1 already failed.  (c) When the provider diff
demands replacement, `Check` is re-run with no prior inputs (`nil` olds) on
the original event inputs, and failures from this second check cause an
immediate error return: the trace ends at that second check call. -/
theorem check_failure_fatality (iter : IterState) (e : RegEvent) :
    (∀ ins fails, e.goal.custom = true → e.oracle.provErr = none →
      e.oracle.check1 = .ok (ins, fails) → fails ≠ [] →
      (∀ a ∈ e.analyzers, a = .ok ([] : List AnalyzeFailure)) →
      makeRegisterResouceSteps iter e =
        (.error validationErr, withURN iter e,
         PCall.check (eventURN iter e)
             ((Olds iter.prev (eventURN iter e)).map RState.inputs)
             e.goal.properties
           :: e.analyzers.map (fun _ => PCall.analyze e.goal.typ ins))) ∧
    (∀ ins fails pre post aerr, e.goal.custom = true →
      e.oracle.provErr = none → e.oracle.check1 = .ok (ins, fails) →
      e.analyzers = pre ++ .error aerr :: post →
      (∀ a ∈ pre, ∃ fs, a = .ok fs) →
      ∃ tr, makeRegisterResouceSteps iter e =
        (.error aerr, withURN iter e, tr)) ∧
    (∀ ins ins2 fails2 old d, e.goal.custom = true →
      e.oracle.provErr = none → e.oracle.check1 = .ok (ins, []) →
      (∀ a ∈ e.analyzers, a = .ok ([] : List AnalyzeFailure)) →
      iter.urns.contains (eventURN iter e) = false →
      Olds iter.prev (eventURN iter e) = some old →
      old.typ = e.goal.typ →
      DeepEquals old.inputs ins = false →
      e.oracle.diffRes = .ok d → d.replace = true →
      e.oracle.check2 = .ok (ins2, fails2) → fails2 ≠ [] →
      makeRegisterResouceSteps iter e =
        (.error validationErr, withReplace iter e,
         PCall.check (eventURN iter e) (some old.inputs) e.goal.properties
           :: e.analyzers.map (fun _ => PCall.analyze e.goal.typ ins)
           ++ [PCall.diffCall (eventURN iter e) old.id old.inputs ins]
           ++ [PCall.check (eventURN iter e) none e.goal.properties])) := by
  obtain ⟨⟨gtyp, gname, gcustom, gprops, gparent⟩,
    ⟨provErr, check1, check2, diffRes⟩, analyzers⟩ := e
  refine ⟨?_, ?_, ?_⟩
  · intro ins fails hc hprov hc1 hfails hall
    try dsimp only at hc hprov hc1 hall ⊢
    subst hc hprov hc1
    cases fails with
    | nil => exact absurd rfl hfails
    | cons f fs =>
      unfold makeRegisterResouceSteps
      dsimp only [NewState]
      simp only [Option.isSome_none, Bool.and_false, Bool.false_eq_true,
        if_false, eq_self_iff_true, if_true]
      rw [runAnalyzers_all_ok gtyp ins analyzers hall]
      simp only [List.isEmpty_cons, Bool.not_false, Bool.or_true, Bool.true_or,
        Bool.or_false, eq_self_iff_true, if_true]
      rfl
  · intro ins fails pre post aerr hc hprov hc1 han hpre
    try dsimp only at hc hprov hc1 han hpre ⊢
    subst hc hprov hc1 han
    obtain ⟨tr2, htr⟩ := runAnalyzers_error gtyp ins pre post aerr hpre
    refine ⟨PCall.check (NewURN iter.targetName iter.sourcePkg gtyp gname)
        ((Olds iter.prev (NewURN iter.targetName iter.sourcePkg gtyp
          gname)).map RState.inputs) gprops :: tr2, ?_⟩
    unfold makeRegisterResouceSteps
    dsimp only [NewState]
    simp only [Option.isSome_none, Bool.and_false, Bool.false_eq_true,
      if_false, eq_self_iff_true, if_true]
    rw [htr]
    rfl
  · intro ins ins2 fails2 old d hc hprov hc1 hall hdup hold htyp hde hdr hrep
      hc2 hf2
    try dsimp only at hc hprov hc1 hall hdup hold htyp hde hdr hrep hc2 ⊢
    subst hc hprov hc1 hdr hc2
    cases fails2 with
    | nil => exact absurd rfl hf2
    | cons f2 fs2 =>
      unfold makeRegisterResouceSteps
      dsimp only [NewState]
      simp only [Option.isSome_none, Bool.and_false, Bool.false_eq_true,
        if_false, eq_self_iff_true, if_true]
      rw [runAnalyzers_all_ok gtyp ins analyzers hall]
      rw [show NewURN iter.targetName iter.sourcePkg gtyp gname
            = eventURN iter
                ⟨⟨gtyp, gname, true, gprops, gparent⟩,
                 ⟨none, .ok (ins, []), .ok (ins2, f2 :: fs2), .ok d⟩,
                 analyzers⟩ from rfl]
      rw [hdup, hold]
      simp only [List.isEmpty_nil, Bool.not_true, Bool.or_false, Bool.false_or,
        Bool.false_eq_true, if_false]
      try dsimp only
      rw [show (old.typ != gtyp) = false by
            rw [htyp]
            simp]
      simp only [Bool.false_eq_true, if_false]
      rw [hde]
      simp only [Bool.false_eq_true, if_false]
      try dsimp only
      rw [hrep]
      simp only [eq_self_iff_true, if_true, List.isEmpty_cons, Bool.not_false]
      rfl

/-- Witness for C4: part (a) at the failing-check scenario, part (c) at the
failing-replacement-recheck scenario. -/
theorem check_failure_fatality_witness :
    makeRegisterResouceSteps iterPrevA evCheckFail =
      (.error validationErr, withURN iterPrevA evCheckFail,
       PCall.check (eventURN iterPrevA evCheckFail)
           ((Olds iterPrevA.prev (eventURN iterPrevA evCheckFail)).map
             RState.inputs)
           evCheckFail.goal.properties
         :: evCheckFail.analyzers.map
              (fun _ => PCall.analyze evCheckFail.goal.typ pmB)) ∧
    makeRegisterResouceSteps iterPrevA evReplaceFail =
      (.error validationErr, withReplace iterPrevA evReplaceFail,
       PCall.check (eventURN iterPrevA evReplaceFail) (some stA.inputs)
           evReplaceFail.goal.properties
         :: evReplaceFail.analyzers.map
              (fun _ => PCall.analyze evReplaceFail.goal.typ pmB)
         ++ [PCall.diffCall (eventURN iterPrevA evReplaceFail) stA.id
               stA.inputs pmB]
         ++ [PCall.check (eventURN iterPrevA evReplaceFail) none
               evReplaceFail.goal.properties]) :=
  ⟨(check_failure_fatality iterPrevA evCheckFail).1 pmB
      [{ property := "k", reason := "bad" }] rfl rfl rfl
      (fun hh => List.noConfusion hh)
      (fun a ha => absurd ha (List.not_mem_nil a)),
   (check_failure_fatality iterPrevA evReplaceFail).2.2 pmB pmB
      [{ property := "k", reason := "stale" }] stA
      { replace := true, replaceKeys := ["k"] } rfl rfl rfl
      (fun a ha => absurd ha (List.not_mem_nil a)) (by decide) (by decide) rfl
      (by decide) rfl rfl rfl (fun hh => List.noConfusion hh)⟩

/-! ## Claim C7: classification partition over whole runs -/

theorem computeDeletes_covers (s : IterState) (r : RState)
    (hr : r ∈ prevList s) (hc : delCond s r = true) : r ∈ computeDeletes s := by
  cases hp : s.prev with
  | none =>
    unfold prevList at hr
    rw [hp] at hr
    simp at hr
  | some p =>
    rw [computeDeletes_eq s p hp]
    have hr2 : r ∈ p := by
      unfold prevList at hr
      rw [hp] at hr
      simpa using hr
    exact List.mem_filter.mpr ⟨List.mem_reverse.mpr hr2, hc⟩

theorem delCond_of_replaces (s : IterState) (r : RState)
    (hu : r.urn ∈ s.replaces) : delCond s r = true := by
  have hc : s.replaces.contains r.urn = true := by
    simp only [List.contains_eq_any_beq, List.any_eq_true]
    exact ⟨r.urn, hu, by simp⟩
  unfold delCond
  rw [hc]
  simp

theorem Inv_mrrs (s1 : IterState) (e : RegEvent) (hinv : Inv s1)
    (hsrc : s1.srcdone = false) : ∀ r s2 tr,
    makeRegisterResouceSteps s1 e = (r, s2, tr) → Inv s2 := by
  intro r s2 tr h
  have hdone : s1.done = false := by
    cases hd : s1.done with
    | false => rfl
    | true =>
      have hh := hinv.doneSrc hd
      rw [hsrc] at hh
      exact Bool.noConfusion hh
  obtain hshape := (mrrs_shape s1 e r s2 tr h).1
  rcases hshape with hst | ⟨hdup, hst⟩
  · subst hst
    exact ⟨hinv.cu, hinv.cs, hinv.us,
      fun u hu => List.mem_cons_of_mem _ (hinv.subUrns u hu), hinv.repPrev,
      fun hs2 => Bool.noConfusion (hsrc.symm.trans hs2),
      fun hd2 => Bool.noConfusion (hdone.symm.trans hd2),
      fun hd2 => Bool.noConfusion (hdone.symm.trans hd2)⟩
  · have hnotin : eventURN s1 e ∉ s1.urns := fun hmem =>
      Bool.noConfusion (hdup.symm.trans (List.elem_eq_true_of_mem hmem))
    rcases hst with hst | hst | hst | ⟨hex, hst⟩
    · -- creates grew
      subst hst
      refine ⟨?_, ?_, hinv.us, ?_, hinv.repPrev,
        fun hs2 => Bool.noConfusion (hsrc.symm.trans hs2),
        fun hd2 => Bool.noConfusion (hdone.symm.trans hd2),
        fun hd2 => Bool.noConfusion (hdone.symm.trans hd2)⟩
      · intro u hu
        rcases List.mem_cons.mp hu with rfl | hu2
        · exact fun hupd => hnotin (hinv.subUrns _ (Or.inr (Or.inl hupd)))
        · exact hinv.cu u hu2
      · intro u hu
        rcases List.mem_cons.mp hu with rfl | hu2
        · exact fun hsame =>
            hnotin (hinv.subUrns _ (Or.inr (Or.inr (Or.inl hsame))))
        · exact hinv.cs u hu2
      · intro u hu
        rcases hu with hu | hu | hu | hu
        · rcases List.mem_cons.mp hu with rfl | hu2
          · exact List.mem_cons_self _ _
          · exact List.mem_cons_of_mem _ (hinv.subUrns u (Or.inl hu2))
        · exact List.mem_cons_of_mem _ (hinv.subUrns u (Or.inr (Or.inl hu)))
        · exact List.mem_cons_of_mem _
            (hinv.subUrns u (Or.inr (Or.inr (Or.inl hu))))
        · exact List.mem_cons_of_mem _
            (hinv.subUrns u (Or.inr (Or.inr (Or.inr hu))))
    · -- sames grew
      subst hst
      refine ⟨hinv.cu, ?_, ?_, ?_, hinv.repPrev,
        fun hs2 => Bool.noConfusion (hsrc.symm.trans hs2),
        fun hd2 => Bool.noConfusion (hdone.symm.trans hd2),
        fun hd2 => Bool.noConfusion (hdone.symm.trans hd2)⟩
      · intro u hu hml
        rcases List.mem_cons.mp hml with he | hml2
        · exact hnotin (he ▸ hinv.subUrns u (Or.inl hu))
        · exact hinv.cs u hu hml2
      · intro u hu hml
        rcases List.mem_cons.mp hml with he | hml2
        · exact hnotin (he ▸ hinv.subUrns u (Or.inr (Or.inl hu)))
        · exact hinv.us u hu hml2
      · intro u hu
        rcases hu with hu | hu | hu | hu
        · exact List.mem_cons_of_mem _ (hinv.subUrns u (Or.inl hu))
        · exact List.mem_cons_of_mem _ (hinv.subUrns u (Or.inr (Or.inl hu)))
        · rcases List.mem_cons.mp hu with rfl | hu2
          · exact List.mem_cons_self _ _
          · exact List.mem_cons_of_mem _
              (hinv.subUrns u (Or.inr (Or.inr (Or.inl hu2))))
        · exact List.mem_cons_of_mem _
            (hinv.subUrns u (Or.inr (Or.inr (Or.inr hu))))
    · -- updates grew
      subst hst
      refine ⟨?_, hinv.cs, ?_, ?_, hinv.repPrev,
        fun hs2 => Bool.noConfusion (hsrc.symm.trans hs2),
        fun hd2 => Bool.noConfusion (hdone.symm.trans hd2),
        fun hd2 => Bool.noConfusion (hdone.symm.trans hd2)⟩
      · intro u hu hml
        rcases List.mem_cons.mp hml with he | hml2
        · exact hnotin (he ▸ hinv.subUrns u (Or.inl hu))
        · exact hinv.cu u hu hml2
      · intro u hu
        rcases List.mem_cons.mp hu with rfl | hu2
        · exact fun hsame =>
            hnotin (hinv.subUrns _ (Or.inr (Or.inr (Or.inl hsame))))
        · exact hinv.us u hu2
      · intro u hu
        rcases hu with hu | hu | hu | hu
        · exact List.mem_cons_of_mem _ (hinv.subUrns u (Or.inl hu))
        · rcases List.mem_cons.mp hu with rfl | hu2
          · exact List.mem_cons_self _ _
          · exact List.mem_cons_of_mem _
              (hinv.subUrns u (Or.inr (Or.inl hu2)))
        · exact List.mem_cons_of_mem _
            (hinv.subUrns u (Or.inr (Or.inr (Or.inl hu))))
        · exact List.mem_cons_of_mem _
            (hinv.subUrns u (Or.inr (Or.inr (Or.inr hu))))
    · -- replaces grew
      subst hst
      refine ⟨hinv.cu, hinv.cs, hinv.us, ?_, ?_,
        fun hs2 => Bool.noConfusion (hsrc.symm.trans hs2),
        fun hd2 => Bool.noConfusion (hdone.symm.trans hd2),
        fun hd2 => Bool.noConfusion (hdone.symm.trans hd2)⟩
      · intro u hu
        rcases hu with hu | hu | hu | hu
        · exact List.mem_cons_of_mem _ (hinv.subUrns u (Or.inl hu))
        · exact List.mem_cons_of_mem _ (hinv.subUrns u (Or.inr (Or.inl hu)))
        · exact List.mem_cons_of_mem _
            (hinv.subUrns u (Or.inr (Or.inr (Or.inl hu))))
        · rcases List.mem_cons.mp hu with rfl | hu2
          · exact List.mem_cons_self _ _
          · exact List.mem_cons_of_mem _
              (hinv.subUrns u (Or.inr (Or.inr (Or.inr hu2))))
      · intro u hu
        rcases List.mem_cons.mp hu with rfl | hu2
        · obtain ⟨old, hold⟩ := hex
          have hold2 : List.find? (fun rr => rr.urn == eventURN s1 e)
              (s1.prev.getD []) = some old := hold
          have hpa := List.find?_some hold2
          exact ⟨old, List.mem_of_find?_eq_some hold2,
            eq_of_beq (show (old.urn == eventURN s1 e) = true from hpa)⟩
        · exact hinv.repPrev u hu2

theorem nextBody_inv (s : IterState) (hinv : Inv s) (out : LoopOut)
    (h : nextBody s = out) :
    (∀ st err s2, out = .ret st err s2 → Inv s2) ∧
    (∀ s2, out = .cont s2 → Inv s2) := by
  subst h
  unfold nextBody
  split
  · -- stepqueue pop
    refine ⟨?_, ?_⟩
    · intro st err s2 h2
      cases h2
      exact ⟨hinv.cu, hinv.cs, hinv.us, hinv.subUrns, hinv.repPrev,
        hinv.repDel, hinv.doneDel, hinv.doneSrc⟩
    · intro s2 h2
      exact LoopOut.noConfusion h2
  · split
    · -- source is done: drain
      rename_i hsrc
      split
      · rename_i d rest hdel
        refine ⟨?_, ?_⟩
        · intro st err s2 h2
          cases h2
          refine ⟨hinv.cu, hinv.cs, hinv.us, hinv.subUrns, hinv.repPrev, ?_,
            ?_, hinv.doneSrc⟩
          · intro hs2 u hu
            rcases hinv.repDel hs2 u hu with hd | ⟨rr, hr, hurn⟩
            · exact Or.inl (List.mem_cons_of_mem _ hd)
            · rw [hdel] at hr
              rcases List.mem_cons.mp hr with rfl | hr2
              · subst hurn
                exact Or.inl (List.mem_cons_self _ _)
              · exact Or.inr ⟨rr, hr2, hurn⟩
          · intro hd2 u hu
            exact List.mem_cons_of_mem _ (hinv.doneDel hd2 u hu)
        · intro s2 h2
          exact LoopOut.noConfusion h2
      · rename_i hdel
        refine ⟨?_, ?_⟩
        · intro st err s2 h2
          cases h2
          refine ⟨hinv.cu, hinv.cs, hinv.us, hinv.subUrns, hinv.repPrev, ?_,
            ?_, ?_⟩
          · intro hs2 u hu
            exact hinv.repDel hs2 u hu
          · intro _ u hu
            rcases hinv.repDel hsrc u hu with hd | ⟨rr, hr, _⟩
            · exact hd
            · rw [hdel] at hr
              exact absurd hr (List.not_mem_nil rr)
          · intro _
            exact hsrc
        · intro s2 h2
          exact LoopOut.noConfusion h2
    · rename_i hsrc
      have hsrc2 : s.srcdone = false := by
        revert hsrc
        cases s.srcdone <;> simp
      split
      · -- end of stream: note srcdone, queue deletions
        refine ⟨?_, ?_⟩
        · intro st err s2 h2
          exact LoopOut.noConfusion h2
        · intro s2 h2
          cases h2
          refine ⟨hinv.cu, hinv.cs, hinv.us, hinv.subUrns, hinv.repPrev, ?_,
            ?_, fun _ => rfl⟩
          · intro _ u hu
            obtain ⟨rr, hr, hurn⟩ := hinv.repPrev u hu
            right
            refine ⟨rr, ?_, hurn⟩
            refine computeDeletes_covers s rr hr (delCond_of_replaces s rr ?_)
            rw [hurn]
            exact hu
          · intro hd2 u hu
            exact hinv.doneDel hd2 u hu
      · rename_i ev rest hsrceq
        have hinv1 : Inv { s with src := rest } :=
          ⟨hinv.cu, hinv.cs, hinv.us, hinv.subUrns, hinv.repPrev, hinv.repDel,
           hinv.doneDel, hinv.doneSrc⟩
        dsimp only
        cases ev with
        | register e =>
          dsimp only
          rcases hm : makeRegisterResouceSteps { s with src := rest } e
            with ⟨r2, s2h, tr2⟩
          have hs2inv : Inv s2h :=
            Inv_mrrs { s with src := rest } e hinv1 hsrc2 _ _ _ hm
          cases r2 with
          | error err =>
            refine ⟨?_, ?_⟩
            · intro st err2 s2 h2
              cases h2
              exact hs2inv
            · intro s2 h2
              exact LoopOut.noConfusion h2
          | ok steps =>
            cases steps with
            | nil =>
              refine ⟨?_, ?_⟩
              · intro st err s2 h2
                cases h2
                exact hs2inv
              · intro s2 h2
                exact LoopOut.noConfusion h2
            | cons st0 tail =>
              refine ⟨?_, ?_⟩
              · intro st err s2 h2
                cases h2
                exact ⟨hs2inv.cu, hs2inv.cs, hs2inv.us, hs2inv.subUrns,
                  hs2inv.repPrev, hs2inv.repDel, hs2inv.doneDel,
                  hs2inv.doneSrc⟩
              · intro s2 h2
                exact LoopOut.noConfusion h2
        | outputs e =>
          dsimp only
          cases hro : (registerResourceOutputs { s with src := rest } e).err
            with
          | some err =>
            refine ⟨?_, ?_⟩
            · intro st err2 s2 h2
              cases h2
              exact ⟨hinv1.cu, hinv1.cs, hinv1.us, hinv1.subUrns,
                hinv1.repPrev, hinv1.repDel, hinv1.doneDel, hinv1.doneSrc⟩
            · intro s2 h2
              exact LoopOut.noConfusion h2
          | none =>
            refine ⟨?_, ?_⟩
            · intro st err s2 h2
              exact LoopOut.noConfusion h2
            · intro s2 h2
              cases h2
              exact ⟨hinv1.cu, hinv1.cs, hinv1.us, hinv1.subUrns,
                hinv1.repPrev, hinv1.repDel, hinv1.doneDel, hinv1.doneSrc⟩

theorem nextLoop_inv : ∀ (n : Nat) (s : IterState), Inv s →
    Inv (nextLoop n s).2 := by
  intro n
  induction n with
  | zero =>
    intro s h
    exact h
  | succ n ih =>
    intro s h
    rw [nextLoop]
    split
    · exact h
    · cases hb : nextBody s with
      | ret st err s2 =>
        exact (nextBody_inv s h _ hb).1 st err s2 rfl
      | cont s2 =>
        exact ih s2 ((nextBody_inv s h _ hb).2 s2 rfl)

theorem Next_inv (s : IterState) (h : Inv s) : Inv (Next s).2 :=
  nextLoop_inv _ s h

theorem StepRel_inv {a b : IterState} (h : Inv a) (hr : StepRel a b) : Inv b := by
  rcases hr with hb | ⟨st, oc, hb⟩
  · rw [hb]
    exact Next_inv a h
  · rw [hb]
    exact ⟨h.cu, h.cs, h.us, h.subUrns, h.repPrev, h.repDel, h.doneDel,
      h.doneSrc⟩

theorem Reaches_inv {a b : IterState} (h : Inv a) (hr : Reaches a b) : Inv b := by
  induction hr with
  | refl => exact h
  | tail hab hbc ih => exact StepRel_inv ih hbc

theorem Inv_start (tgt pkg : String) (prev : Option (List RState))
    (ev : Option EventsHooks) (src : List Event) :
    Inv (startState tgt pkg prev ev src) :=
  ⟨fun u hu => absurd hu (List.not_mem_nil u),
   fun u hu => absurd hu (List.not_mem_nil u),
   fun u hu => absurd hu (List.not_mem_nil u),
   fun u hu => by
     rcases hu with h | h | h | h <;> exact absurd h (List.not_mem_nil u),
   fun u hu => absurd hu (List.not_mem_nil u),
   fun hs => Bool.noConfusion hs,
   fun hd => Bool.noConfusion hd,
   fun hd => Bool.noConfusion hd⟩

/-- C7: After the iterator reaches `Done()`, the classification sets
`creates`, `updates` and `sames` are pairwise disjoint, and every URN in
`replaces` is also in `deletes`. -/
theorem classification_partition (tgt pkg : String)
    (prev : Option (List RState)) (ev : Option EventsHooks) (src : List Event)
    (s : IterState) (hreach : Reaches (startState tgt pkg prev ev src) s)
    (hdone : s.done = true) :
    (∀ u, u ∈ s.creates → u ∉ s.updates ∧ u ∉ s.sames) ∧
    (∀ u, u ∈ s.updates → u ∉ s.sames) ∧
    (∀ u, u ∈ s.replaces → u ∈ s.deletes) := by
  have hinv := Reaches_inv (Inv_start tgt pkg prev ev src) hreach
  exact ⟨fun u hu => ⟨hinv.cu u hu, hinv.cs u hu⟩, hinv.us, hinv.doneDel hdone⟩

/-- Witness for C7: the empty plan reaches `done` after one `Next` call. -/
theorem classification_partition_witness :
    (∀ u, u ∈ iterDone.creates → u ∉ iterDone.updates ∧ u ∉ iterDone.sames) ∧
    (∀ u, u ∈ iterDone.updates → u ∉ iterDone.sames) ∧
    (∀ u, u ∈ iterDone.replaces → u ∈ iterDone.deletes) :=
  classification_partition "t" "pkg" none none [] iterDone
    (Relation.ReflTransGen.single (Or.inl rfl)) (by rfl)

end PulumiDeploy
